import Mathlib

/-!
Crowdsale helper (`modules/helpers/crowdsale_helper.js`)

A shallow embedding of the pricing and phase-segmentation helper of the
crowdsale test suite, together with the configuration tables of `config.js`.

Conventions of the embedding:

* JavaScript numbers (rates, the precision scale) are rationals, and `getRate`
  carries the exact value of its arithmetic. `JsNumber.round` is the rounding
  of an exact result to a double and `getRate.blend` the arithmetic of
  `getRate` in doubles; where every intermediate result is a JavaScript number,
  as with the integers of `config.js`, the two agree, and the theorems on the
  value of the blend are stated there. Division by a zero scale is outside the
  embedding; theorems whose result contains the quotient assume a non-zero
  scale.
* `BigNumber` contribution volumes are integers (amounts of wei, sign kept).
  A `BigNumber` result is a rational; of the bignumber.js methods, `mul` and
  `pow` are exact and `div` rounds the quotient to the 20 decimal places of
  the library default, half away from zero.
* A JavaScript array is a `List`; `undefined` and `null` results are `none`;
  a thrown `TypeError` is `Except.error JsError.typeError`.
* The module-level variables `config` and `precision` are the fields of
  `Helper`, the value `setup` produces; every exported function takes it as an
  explicit argument.
* The required module `../util` enters as the parameter `util : Util`.
-/

namespace CrowdsaleHelper

/-! ## Data model (`config.js`) -/

/-- Units of the `[amount, unit]` currency pairs that `config.js` writes. -/
inductive EtherUnit where
  | finney
  | ether
  deriving DecidableEq, Repr

/-- Units of the `[amount, unit]` time pairs that `config.js` writes. -/
inductive TimeUnit where
  | minutes
  | days
  deriving DecidableEq, Repr

/-- A currency pair such as `[1, 'ether']`. -/
structure EtherValue where
  amount : Nat
  unit : EtherUnit
  deriving DecidableEq, Repr

/-- A time pair such as `[16, 'days']`. -/
structure TimeValue where
  amount : Nat
  unit : TimeUnit
  deriving DecidableEq, Repr

/-- One entry of `crowdsale.phases`. A `lockupPeriod` written as the literal
`0` is `none`. -/
structure Phase where
  duration : TimeValue
  rate : ℚ
  lockupPeriod : Option TimeValue
  usesVolumeMultiplier : Bool
  deriving DecidableEq, Repr

/-- One entry of `crowdsale.volumeMultipliers`. -/
structure VolumeMultiplier where
  rate : ℚ
  lockupPeriod : Nat
  threshold : EtherValue
  deriving DecidableEq, Repr

/-- The `account` of a stakeholder, by its JavaScript type: a number (the
account indices of `network.test`), a string (the addresses of the other
networks) or an object. -/
inductive Account where
  | number (n : Nat)
  | string (s : String)
  | object (contract : String)
  deriving DecidableEq, Repr

/-- One entry of `crowdsale.stakes.stakeholders`. -/
structure Stakeholder where
  account : Account
  tokens : Nat
  eth : Nat
  overwriteReleaseDate : Bool
  fixedReleaseDate : Nat
  deriving DecidableEq, Repr

/-- One entry of `crowdsale.stakes.tokenReleasePhases`. -/
structure TokenReleasePhase where
  percentage : Nat
  vestingPeriod : TimeValue
  deriving DecidableEq, Repr

/-- The object `crowdsale.stakes`. -/
structure Stakes where
  stakeholders : List Stakeholder
  tokenReleasePhases : List TokenReleasePhase
  deriving Repr

/-- The `options` argument of `getStakeholder`: a field that is `none` is an
`undefined` property. -/
structure StakeholderOptions where
  tokens : Option Bool := none
  eth : Option Bool := none
  contract : Option Bool := none
  overwriteReleaseDate : Option Bool := none
  deriving DecidableEq, Repr

/-- The object `whitelist` of an authentication entry. -/
structure Whitelist where
  require : Bool
  deriving DecidableEq, Repr

/-- The pair `node`, `whitelist` that `config.js` writes for an
authentication. -/
structure AuthenticationEntry where
  node : Nat
  whitelist : Option Whitelist
  deriving DecidableEq, Repr

/-- The object `crowdsale.authentication`. A property that the object does not
have is `none`: `network.test` has `node` and `whitelist`, `network.rinkeby` and
`network.main` have the single property `authentication`, which holds the
pair. -/
structure Authentication where
  node : Option Nat := none
  whitelist : Option Whitelist := none
  authentication : Option AuthenticationEntry := none
  deriving DecidableEq, Repr

/-- The part of `crowdsale` that the helper reads. -/
structure Crowdsale where
  baseRate : ℚ := 0
  authentication : Authentication := {}
  phases : List Phase
  volumeMultipliers : List VolumeMultiplier
  stakes : Stakes := { stakeholders := [], tokenReleasePhases := [] }
  deriving Repr

/-- One network entry of `config.js`. -/
structure Config where
  precision : Nat := 0
  crowdsale : Crowdsale
  deriving Repr

/-- The functions of `util.config` that the helper calls. -/
structure Util where
  getWeiValue : EtherValue → Int
  getDurationValue : TimeValue → Nat

/-- The error a property access on `undefined` throws. -/
inductive JsError where
  | typeError
  deriving DecidableEq, Repr

/-- The module-level variables `config` and `precision` once `setup` has run. -/
structure Helper where
  config : Config
  precision : ℚ

/-! ## Array primitives -/

/-- Element access `xs[i]` for an integer index: `none` (JavaScript
`undefined`) outside the array. -/
def index {α : Type} (xs : List α) (i : Int) : Option α :=
  if i < 0 then none else xs[i.toNat]?

/-- `Array.prototype.slice(start, end)` for non-negative integer arguments,
either of which may be `undefined`: an undefined `start` is `0`, an undefined
`end` is the length. -/
def slice {α : Type} (xs : List α) (start : Option Nat) (stop : Option Nat) : List α :=
  (xs.take (stop.getD xs.length)).drop (start.getD 0)

/-! ## The helper -/

/-- `setup(_config, _precision)`. -/
def setup (_config : Config) (_precision : ℚ) : Helper :=
  { config := _config, precision := _precision }

/-- The loop of `getVolumeMultiplier`: `i` runs from the length of the table
down to `1`, and the tier inspected is the one at `i - 1`. -/
def getVolumeMultiplier.loop (util : Util) (tiers : List VolumeMultiplier) (volume : Int) :
    (i : Nat) → i ≤ tiers.length → Option VolumeMultiplier
  | 0, _ => none
  | i + 1, h =>
    let volumeMultiplier := tiers[i]
    if util.getWeiValue volumeMultiplier.threshold ≤ volume then
      some volumeMultiplier
    else
      getVolumeMultiplier.loop util tiers volume i (Nat.le_of_succ_le h)

/-- `getVolumeMultiplier(volume)`. -/
def getVolumeMultiplier (util : Util) (m : Helper) (volume : Int) : Option VolumeMultiplier :=
  getVolumeMultiplier.loop util m.config.crowdsale.volumeMultipliers volume
    m.config.crowdsale.volumeMultipliers.length (Nat.le_refl _)

/-- `getRate(phase, value)`; `value = none` is a call without the second
argument. -/
def getRate (util : Util) (m : Helper) (phase : Int) (value : Option Int) : Except JsError ℚ :=
  match index m.config.crowdsale.phases phase with
  | none => .error .typeError
  | some p =>
    let rate := p.rate
    match p.usesVolumeMultiplier, value with
    | true, some v =>
      match getVolumeMultiplier util m v with
      | some volumeMultiplier => .ok (rate + rate * volumeMultiplier.rate / m.precision)
      | none => .ok rate
    | _, _ => .ok rate

/-! ### Double arithmetic -/

/-- Rounding of a rational to the nearest integer, a tie to the even one. -/
def JsNumber.roundHalfEven (q : ℚ) : Int :=
  if q - ⌊q⌋ < 1 / 2 then ⌊q⌋
  else if 1 / 2 < q - ⌊q⌋ then ⌊q⌋ + 1
  else if ⌊q⌋ % 2 = 0 then ⌊q⌋
  else ⌊q⌋ + 1

/-- The JavaScript number (IEEE 754 binary64, round to nearest, ties to even)
that an exact result `q` is rounded to: with `2^e ≤ |q| < 2^(e+1)`, the nearest
multiple of `2^(e-52)`. Only the normal range is embedded: overflow to
`Infinity` and the subnormal numbers are outside it. -/
def JsNumber.round (q : ℚ) : ℚ :=
  if q = 0 then 0
  else
    (JsNumber.roundHalfEven (q / (2 : ℚ) ^ (Int.log 2 |q| - 52)) : ℚ) *
      (2 : ℚ) ^ (Int.log 2 |q| - 52)

/-- The expression `rate + rate * volumeMultiplier.rate / precision` of
`getRate` in the double arithmetic of JavaScript numbers: every operation
returns its exact result rounded. -/
def getRate.blend (rate tierRate precision : ℚ) : ℚ :=
  JsNumber.round (rate + JsNumber.round (JsNumber.round (rate * tierRate) / precision))

/-! ### Phase segmentation -/

/-- The loop of `publicsale.getStartingPhaseIndex`, entered at index `i`:
the first index from `i` on whose phase has a positive rate, and `none`
(the function falls off its end and yields `undefined`) when the loop runs
out of phases. -/
def publicsale.getStartingPhaseIndex.loop (phases : List Phase) (i : Nat) : Option Nat :=
  if h : i < phases.length then
    if phases[i].rate > 0 then some i
    else publicsale.getStartingPhaseIndex.loop phases (i + 1)
  else none
termination_by phases.length - i

/-- `publicsale.getStartingPhaseIndex()`: the loop starts at index `1`. -/
def publicsale.getStartingPhaseIndex (m : Helper) : Option Nat :=
  publicsale.getStartingPhaseIndex.loop m.config.crowdsale.phases 1

/-- `presale.getStartingPhaseIndex()`. -/
def presale.getStartingPhaseIndex (_m : Helper) : Nat := 0

/-- `presale.getPhases()`: `phases.slice(0, publicsale.getStartingPhaseIndex())`. -/
def presale.getPhases (m : Helper) : List Phase :=
  slice m.config.crowdsale.phases (some 0) (publicsale.getStartingPhaseIndex m)

/-- `publicsale.getPhases()`: `phases.slice(publicsale.getStartingPhaseIndex())`. -/
def publicsale.getPhases (m : Helper) : List Phase :=
  slice m.config.crowdsale.phases (publicsale.getStartingPhaseIndex m) none

/-- `presale.getTransitionPhase()`. -/
def presale.getTransitionPhase (m : Helper) : Option Phase :=
  let phases := presale.getPhases m
  if h : phases.length > 0 then
    if phases[phases.length - 1].rate = 0 then some phases[phases.length - 1] else none
  else none

/-- `presale.hasTransitionPhase()`: `null !== presale.getTransitionPhase()`. -/
def presale.hasTransitionPhase (m : Helper) : Bool :=
  (presale.getTransitionPhase m).isSome

/-- `presale.getDuration()`: the accumulating loop over `presale.getPhases()`. -/
def presale.getDuration (util : Util) (m : Helper) : Nat :=
  (presale.getPhases m).foldl
    (fun duration phase => duration + util.getDurationValue phase.duration) 0

/-- `publicsale.getDuration()`: the accumulating loop over
`publicsale.getPhases()`. -/
def publicsale.getDuration (util : Util) (m : Helper) : Nat :=
  (publicsale.getPhases m).foldl
    (fun duration phase => duration + util.getDurationValue phase.duration) 0

/-- `presale.getStartingPhase()`: `config.crowdsale.phases[0]`. -/
def presale.getStartingPhase (m : Helper) : Option Phase :=
  index m.config.crowdsale.phases 0

/-- `publicsale.getStartingPhase()`: `config.crowdsale.phases[0]`. -/
def publicsale.getStartingPhase (m : Helper) : Option Phase :=
  index m.config.crowdsale.phases 0

/-- `presale.getRate(phase, value)`. -/
def presale.getRate (util : Util) (m : Helper) (phase : Int) (value : Option Int) :
    Except JsError ℚ :=
  CrowdsaleHelper.getRate util m phase value

/-- `publicsale.getRate(phase, value)`: the index is
`publicsale.getStartingPhaseIndex() + phase`; with an undefined start index the
sum is `NaN`, the phase looked up is `undefined` and reading its rate throws. -/
def publicsale.getRate (util : Util) (m : Helper) (phase : Int) (value : Option Int) :
    Except JsError ℚ :=
  match publicsale.getStartingPhaseIndex m with
  | none => .error .typeError
  | some start => CrowdsaleHelper.getRate util m ((start : Int) + phase) value

/-! ### Authentication, stakeholders and token value -/

/-- `usesAuthentication()`:
`typeof config.crowdsale.authentication.whitelist === 'object'`. -/
def usesAuthentication (m : Helper) : Bool :=
  m.config.crowdsale.authentication.whitelist.isSome

/-- The condition of the `if` in the loop of `getStakeholder`. On an account,
`typeof account === 'object'` holds of an object and
`typeof account === 'string'` of a string. -/
def getStakeholder.selects (options : StakeholderOptions) (stakeholder : Stakeholder) : Bool :=
  (options.tokens == none || (options.tokens == some true && decide (stakeholder.tokens > 0))
      || (options.tokens == some false && stakeholder.tokens == 0)) &&
    (options.eth == none || (options.eth == some true && decide (stakeholder.eth > 0))
      || (options.eth == some false && stakeholder.eth == 0)) &&
    (options.contract == none
      || (options.contract == some true &&
            match stakeholder.account with
            | .object _ => true
            | _ => false)
      || (options.contract == some false &&
            match stakeholder.account with
            | .string _ => true
            | _ => false)) &&
    (options.overwriteReleaseDate == none
      || options.overwriteReleaseDate == some stakeholder.overwriteReleaseDate)

/-- `getStakeholder(options)`: the loop over the stakeholder table that pushes
every selected stakeholder on the result. -/
def getStakeholder (m : Helper) (options : StakeholderOptions) : List Stakeholder :=
  m.config.crowdsale.stakes.stakeholders.foldl
    (fun stakeholders stakeholder =>
      if getStakeholder.selects options stakeholder then stakeholders ++ [stakeholder]
      else stakeholders)
    []

/-- The library default `DECIMAL_PLACES` of bignumber.js. -/
def BigNumber.decimalPlaces : Nat := 20

/-- The library default rounding mode of bignumber.js, `ROUND_HALF_UP`: to the
nearest integer, a tie away from zero. -/
def BigNumber.roundHalfUp (q : ℚ) : Int :=
  if 0 ≤ q then ⌊q + 1 / 2⌋ else -⌊-q + 1 / 2⌋

/-- The method `div` of bignumber.js: the quotient rounded to `DECIMAL_PLACES`
decimal places in the rounding mode. A zero divisor is outside the
embedding. -/
def BigNumber.div (x y : ℚ) : ℚ :=
  (BigNumber.roundHalfUp (x / y * 10 ^ BigNumber.decimalPlaces) : ℚ) /
    10 ^ BigNumber.decimalPlaces

/-- `getTokenValue(rate, value, decimals)`; `mul` and `pow` of bignumber.js are
exact. -/
def getTokenValue (util : Util) (rate : ℚ) (value : Int) (decimals : Nat) : ℚ :=
  let value : ℚ := value
  let tokenPrecision : ℚ := 10 ^ decimals
  BigNumber.div (value * rate * tokenPrecision) (util.getWeiValue ⟨1, .ether⟩)

/-! ## Collaborators and configurations -/

/-- Modelled from the spec: `modules/util` (`util.config.getWeiValue`,
`util.config.getDurationValue`) is not among the sources. The spec fixes one
whole unit of the base currency at `10^18` of its smallest unit; a finney is a
thousandth of an ether, and durations are counted in seconds. -/
def specUtil : Util where
  getWeiValue v :=
    match v.unit with
    | .ether => (v.amount : Int) * 10 ^ 18
    | .finney => (v.amount : Int) * 10 ^ 15
  getDurationValue v :=
    match v.unit with
    | .days => v.amount * 86400
    | .minutes => v.amount * 60

/-- Modelled from the spec: the caller of `setup` is not among the sources. The
scale it binds for a configured number of decimal digits is `10^digits`
(`4` digits give `10^4`). -/
def precisionScale (digits : Nat) : ℚ := 10 ^ digits

/-- An amount of ether in wei. -/
def ether (n : Int) : Int := n * 10 ^ 18

/-- The volume-multiplier table of `config.js`, the same in all three
networks. -/
def configVolumeMultipliers : List VolumeMultiplier :=
  [ { rate := 4000, lockupPeriod := 0, threshold := ⟨1, .ether⟩ },
    { rate := 4500, lockupPeriod := 0, threshold := ⟨30, .ether⟩ },
    { rate := 5000, lockupPeriod := 5000, threshold := ⟨100, .ether⟩ },
    { rate := 5500, lockupPeriod := 10000, threshold := ⟨500, .ether⟩ },
    { rate := 6000, lockupPeriod := 15000, threshold := ⟨1000, .ether⟩ },
    { rate := 6500, lockupPeriod := 20000, threshold := ⟨2500, .ether⟩ } ]

/-- The table `tokenReleasePhases` of `config.js`, the same in all three
networks. -/
def configTokenReleasePhases : List TokenReleasePhase :=
  [ { percentage := 2500, vestingPeriod := ⟨90, .days⟩ },
    { percentage := 2500, vestingPeriod := ⟨180, .days⟩ },
    { percentage := 2500, vestingPeriod := ⟨270, .days⟩ },
    { percentage := 2500, vestingPeriod := ⟨360, .days⟩ } ]

/-- The entry `network.test` of `config.js`. -/
def testConfig : Config :=
  { precision := 4
    crowdsale :=
      { baseRate := 1000
        authentication := { node := some 0, whitelist := some { require := true } }
        phases :=
          [ { duration := ⟨16, .days⟩, rate := 1000, lockupPeriod := some ⟨30, .days⟩,
              usesVolumeMultiplier := true },
            { duration := ⟨15, .days⟩, rate := 0, lockupPeriod := none,
              usesVolumeMultiplier := false },
            { duration := ⟨1, .days⟩, rate := 1400, lockupPeriod := none,
              usesVolumeMultiplier := false },
            { duration := ⟨7, .days⟩, rate := 1250, lockupPeriod := none,
              usesVolumeMultiplier := false },
            { duration := ⟨7, .days⟩, rate := 1150, lockupPeriod := none,
              usesVolumeMultiplier := false },
            { duration := ⟨7, .days⟩, rate := 1100, lockupPeriod := none,
              usesVolumeMultiplier := false },
            { duration := ⟨7, .days⟩, rate := 1050, lockupPeriod := none,
              usesVolumeMultiplier := false } ]
        volumeMultipliers := configVolumeMultipliers
        stakes :=
          { stakeholders :=
              [ { account := .number 0, tokens := 0, eth := 7000,
                  overwriteReleaseDate := false, fixedReleaseDate := 0 },
                { account := .number 1, tokens := 1000, eth := 0,
                  overwriteReleaseDate := false, fixedReleaseDate := 0 },
                { account := .number 2, tokens := 750, eth := 1000,
                  overwriteReleaseDate := false, fixedReleaseDate := 0 },
                { account := .number 3, tokens := 750, eth := 1000,
                  overwriteReleaseDate := false, fixedReleaseDate := 0 },
                { account := .number 4, tokens := 750, eth := 1000,
                  overwriteReleaseDate := false, fixedReleaseDate := 0 },
                { account := .number 5, tokens := 200, eth := 0,
                  overwriteReleaseDate := true, fixedReleaseDate := 0 },
                { account := .number 6, tokens := 500, eth := 0,
                  overwriteReleaseDate := true, fixedReleaseDate := 0 } ]
            tokenReleasePhases := configTokenReleasePhases } } }

/-- The helper after `setup` with `network.test` and its precision scale. -/
def testHelper : Helper := setup testConfig (precisionScale testConfig.precision)

/-- The configuration of the worked rate example: one phase of rate `1000`
that uses volume multipliers, and two tiers. -/
def exampleConfig : Config :=
  { precision := 4
    crowdsale :=
      { phases :=
          [ { duration := ⟨1, .days⟩, rate := 1000, lockupPeriod := none,
              usesVolumeMultiplier := true } ]
        volumeMultipliers :=
          [ { rate := 4000, lockupPeriod := 0, threshold := ⟨1, .ether⟩ },
            { rate := 5000, lockupPeriod := 0, threshold := ⟨100, .ether⟩ } ] } }

/-- The helper after `setup` with the example configuration and the scale of
its four decimal digits. -/
def exampleHelper : Helper := setup exampleConfig (precisionScale 4)

/-- A configuration with an empty phase table. -/
def emptyConfig : Config :=
  { crowdsale := { phases := [], volumeMultipliers := configVolumeMultipliers } }

/-- A configuration whose phase table stops after the presale phase and the
break of the test network: no phase after index `0` has a positive rate. -/
def noPublicsaleConfig : Config :=
  { precision := 4
    crowdsale :=
      { baseRate := 1000
        phases :=
          [ { duration := ⟨16, .days⟩, rate := 1000, lockupPeriod := some ⟨30, .days⟩,
              usesVolumeMultiplier := true },
            { duration := ⟨15, .days⟩, rate := 0, lockupPeriod := none,
              usesVolumeMultiplier := false } ]
        volumeMultipliers := configVolumeMultipliers } }

/-- The entry `network.rinkeby` of `config.js`. -/
def rinkebyConfig : Config :=
  { precision := 4
    crowdsale :=
      { baseRate := 500
        authentication :=
          { authentication := some { node := 0, whitelist := some { require := true } } }
        phases :=
          [ { duration := ⟨16, .days⟩, rate := 500, lockupPeriod := some ⟨30, .days⟩,
              usesVolumeMultiplier := true },
            { duration := ⟨15, .days⟩, rate := 0, lockupPeriod := none,
              usesVolumeMultiplier := false },
            { duration := ⟨1, .days⟩, rate := 700, lockupPeriod := none,
              usesVolumeMultiplier := false },
            { duration := ⟨7, .days⟩, rate := 625, lockupPeriod := none,
              usesVolumeMultiplier := false },
            { duration := ⟨7, .days⟩, rate := 575, lockupPeriod := none,
              usesVolumeMultiplier := false },
            { duration := ⟨7, .days⟩, rate := 550, lockupPeriod := none,
              usesVolumeMultiplier := false },
            { duration := ⟨7, .days⟩, rate := 525, lockupPeriod := none,
              usesVolumeMultiplier := false } ]
        volumeMultipliers := configVolumeMultipliers
        stakes :=
          { stakeholders :=
              [ { account := .string "", tokens := 0, eth := 10000,
                  overwriteReleaseDate := false, fixedReleaseDate := 0 },
                { account := .string "", tokens := 1000, eth := 0,
                  overwriteReleaseDate := false, fixedReleaseDate := 0 },
                { account := .string "", tokens := 1200, eth := 0,
                  overwriteReleaseDate := true, fixedReleaseDate := 0 },
                { account := .string "", tokens := 200, eth := 0,
                  overwriteReleaseDate := true, fixedReleaseDate := 0 },
                { account := .string "", tokens := 100, eth := 0,
                  overwriteReleaseDate := true, fixedReleaseDate := 0 } ]
            tokenReleasePhases := configTokenReleasePhases } } }

/-- The entry `network.main` of `config.js`: in every field of the embedding it
repeats `network.rinkeby`. -/
def mainConfig : Config :=
  { precision := 4
    crowdsale :=
      { baseRate := 500
        authentication :=
          { authentication := some { node := 0, whitelist := some { require := true } } }
        phases := rinkebyConfig.crowdsale.phases
        volumeMultipliers := configVolumeMultipliers
        stakes := rinkebyConfig.crowdsale.stakes } }

/-- A configuration with one phase of rate `10` that uses volume multipliers
and the tiers of rate `4005` at 1 ether and `4030` at 100 ether. -/
def roundingConfig : Config :=
  { precision := 4
    crowdsale :=
      { phases :=
          [ { duration := ⟨1, .days⟩, rate := 10, lockupPeriod := none,
              usesVolumeMultiplier := true } ]
        volumeMultipliers :=
          [ { rate := 4005, lockupPeriod := 0, threshold := ⟨1, .ether⟩ },
            { rate := 4030, lockupPeriod := 0, threshold := ⟨100, .ether⟩ } ] } }

/-- A configuration with one phase of rate `1000` that uses volume multipliers
and a single tier whose rate is negative. -/
def negativeTierConfig : Config :=
  { precision := 4
    crowdsale :=
      { phases :=
          [ { duration := ⟨1, .days⟩, rate := 1000, lockupPeriod := none,
              usesVolumeMultiplier := true } ]
        volumeMultipliers :=
          [ { rate := -4000, lockupPeriod := 0, threshold := ⟨1, .ether⟩ } ] } }

/-! ## Definitions in the words of the spec -/

/-- Modelled from the spec: the token value as the spec words it, the product
`amount * rate * 10^decimals` divided by the `10^18` wei of one ether with the
quotient truncated toward zero. Stated for non-negative arguments, where
truncation is the floor. -/
def specTokenValue (rate amount decimals : Nat) : Nat :=
  amount * rate * 10 ^ decimals / 10 ^ 18

/-- Modelled from the spec: the filter of the stakeholder selection as the spec
words it. A predicate that is present must match exactly (`tokens > 0`,
`eth > 0`, the account is a contract-style identity, `overwriteReleaseDate`
equals the given value); an absent predicate imposes nothing. -/
def specSelects (options : StakeholderOptions) (stakeholder : Stakeholder) : Bool :=
  (match options.tokens with
    | none => true
    | some flag => decide (stakeholder.tokens > 0) == flag) &&
  (match options.eth with
    | none => true
    | some flag => decide (stakeholder.eth > 0) == flag) &&
  (match options.contract with
    | none => true
    | some flag =>
      (match stakeholder.account with
        | .object _ => true
        | _ => false) == flag) &&
  (match options.overwriteReleaseDate with
    | none => true
    | some flag => stakeholder.overwriteReleaseDate == flag)

/-- Modelled from the spec: the vesting expansion is not among the sources.
The share of a checkpoint of percentage `p` in an allocation `T` is
`T * p / 10000`, the quotient truncated. -/
def releaseShare (tokens : Nat) (phase : TokenReleasePhase) : Nat :=
  tokens * phase.percentage / 10000

/-- Modelled from the spec: the vesting expansion is not among the sources.
Every checkpoint releases its share `T * p_k / 10000`, and the final
checkpoint releases in addition the rounding remainder, what the shares leave
of the allocation `T`. A table without checkpoints releases nothing. -/
def releaseAmounts (tokens : Nat) (phases : List TokenReleasePhase) : List Nat :=
  let shares := phases.map (releaseShare tokens)
  match shares.getLast? with
  | none => []
  | some last => shares.dropLast ++ [last + (tokens - shares.sum)]

/-! ## Lemmas on the tier lookup -/

theorem getVolumeMultiplier_loop_eq_some_iff (util : Util) (tiers : List VolumeMultiplier)
    (volume : Int) (vm : VolumeMultiplier) :
    ∀ (i : Nat) (h : i ≤ tiers.length),
      getVolumeMultiplier.loop util tiers volume i h = some vm ↔
        ∃ k, k < i ∧ tiers[k]? = some vm ∧ util.getWeiValue vm.threshold ≤ volume ∧
          ∀ j t, k < j → j < i → tiers[j]? = some t → volume < util.getWeiValue t.threshold := by
  intro i
  induction i with
  | zero => intro h; simp [getVolumeMultiplier.loop]
  | succ i ih =>
    intro h
    have hi : i < tiers.length := h
    have hget : tiers[i]? = some tiers[i] := List.getElem?_eq_getElem hi
    unfold getVolumeMultiplier.loop
    by_cases hq : util.getWeiValue (tiers[i]).threshold ≤ volume
    · simp only [hq, if_true]
      constructor
      · intro hvm
        have hvm2 : tiers[i] = vm := Option.some.inj hvm
        refine ⟨i, Nat.lt_succ_self i, ?_, ?_, ?_⟩
        · rw [hget, hvm2]
        · rw [← hvm2]; exact hq
        · intro j t hkj hji; omega
      · rintro ⟨k, hk, hkv, hkq, hmax⟩
        rcases Nat.lt_succ_iff_lt_or_eq.mp hk with hlt | heq
        · have := hmax i tiers[i] hlt (Nat.lt_succ_self i) hget
          omega
        · subst heq
          rw [hget] at hkv
          exact hkv
    · simp only [hq, if_false]
      rw [ih (Nat.le_of_succ_le h)]
      constructor
      · rintro ⟨k, hk, hkv, hkq, hmax⟩
        refine ⟨k, Nat.lt_succ_of_lt hk, hkv, hkq, ?_⟩
        intro j t hkj hji hjt
        rcases Nat.lt_succ_iff_lt_or_eq.mp hji with hlt | heq
        · exact hmax j t hkj hlt hjt
        · subst heq
          rw [hget] at hjt
          have : tiers[j] = t := Option.some.inj hjt
          rw [← this]; omega
      · rintro ⟨k, hk, hkv, hkq, hmax⟩
        rcases Nat.lt_succ_iff_lt_or_eq.mp hk with hlt | heq
        · exact ⟨k, hlt, hkv, hkq, fun j t hkj hji => hmax j t hkj (Nat.lt_succ_of_lt hji)⟩
        · subst heq
          rw [hget] at hkv
          have : tiers[k] = vm := Option.some.inj hkv
          rw [← this] at hkq
          exact absurd hkq hq

theorem getVolumeMultiplier_loop_eq_none_iff (util : Util) (tiers : List VolumeMultiplier)
    (volume : Int) :
    ∀ (i : Nat) (h : i ≤ tiers.length),
      getVolumeMultiplier.loop util tiers volume i h = none ↔
        ∀ j t, j < i → tiers[j]? = some t → volume < util.getWeiValue t.threshold := by
  intro i
  induction i with
  | zero => intro h; simp [getVolumeMultiplier.loop]
  | succ i ih =>
    intro h
    have hi : i < tiers.length := h
    have hget : tiers[i]? = some tiers[i] := List.getElem?_eq_getElem hi
    unfold getVolumeMultiplier.loop
    by_cases hq : util.getWeiValue (tiers[i]).threshold ≤ volume
    · simp only [hq, if_true]
      constructor
      · intro hvm; cases hvm
      · intro hall
        have := hall i tiers[i] (Nat.lt_succ_self i) hget
        omega
    · simp only [hq, if_false]
      rw [ih (Nat.le_of_succ_le h)]
      constructor
      · intro hall j t hji hjt
        rcases Nat.lt_succ_iff_lt_or_eq.mp hji with hlt | heq
        · exact hall j t hlt hjt
        · subst heq
          rw [hget] at hjt
          have : tiers[j] = t := Option.some.inj hjt
          rw [← this]; omega
      · intro hall j t hji hjt
        exact hall j t (Nat.lt_succ_of_lt hji) hjt

theorem getVolumeMultiplier_eq_some_iff (util : Util) (m : Helper) (volume : Int)
    (vm : VolumeMultiplier) :
    getVolumeMultiplier util m volume = some vm ↔
      ∃ k, m.config.crowdsale.volumeMultipliers[k]? = some vm ∧
        util.getWeiValue vm.threshold ≤ volume ∧
        ∀ (j : Nat) (t : VolumeMultiplier), k < j →
          m.config.crowdsale.volumeMultipliers[j]? = some t →
          volume < util.getWeiValue t.threshold := by
  unfold getVolumeMultiplier
  rw [getVolumeMultiplier_loop_eq_some_iff]
  constructor
  · rintro ⟨k, _, hkv, hkq, hmax⟩
    refine ⟨k, hkv, hkq, fun j t hkj hjt => hmax j t hkj ?_ hjt⟩
    exact (List.getElem?_eq_some_iff.mp hjt).1
  · rintro ⟨k, hkv, hkq, hmax⟩
    exact ⟨k, (List.getElem?_eq_some_iff.mp hkv).1, hkv, hkq,
      fun j t hkj _ hjt => hmax j t hkj hjt⟩

theorem getVolumeMultiplier_eq_none_iff (util : Util) (m : Helper) (volume : Int) :
    getVolumeMultiplier util m volume = none ↔
      ∀ t ∈ m.config.crowdsale.volumeMultipliers, volume < util.getWeiValue t.threshold := by
  unfold getVolumeMultiplier
  rw [getVolumeMultiplier_loop_eq_none_iff]
  constructor
  · intro hall t ht
    obtain ⟨j, hj, hjt⟩ := List.getElem_of_mem ht
    exact hall j t hj (by rw [List.getElem?_eq_getElem hj, hjt])
  · intro hall j t _ hjt
    exact hall t (List.getElem?_mem hjt)

/-! ## Lemmas on the double arithmetic -/

theorem JsNumber.roundHalfEven_eq_of_near (q : ℚ) (n : Int)
    (hlo : (n : ℚ) - 1 / 2 < q) (hhi : q < (n : ℚ) + 1 / 2) :
    JsNumber.roundHalfEven q = n := by
  unfold JsNumber.roundHalfEven
  rcases le_or_lt (n : ℚ) q with hn | hn
  · have hf : ⌊q⌋ = n := by
      rw [Int.floor_eq_iff]
      exact ⟨hn, by linarith⟩
    rw [hf, if_pos (by linarith)]
  · have hf : ⌊q⌋ = n - 1 := by
      rw [Int.floor_eq_iff]
      push_cast
      exact ⟨by linarith, by linarith⟩
    rw [hf]
    push_cast
    rw [if_neg (by linarith), if_pos (by linarith)]
    ring

theorem JsNumber.roundHalfEven_intCast (n : Int) : JsNumber.roundHalfEven (n : ℚ) = n :=
  JsNumber.roundHalfEven_eq_of_near _ n (by linarith) (by linarith)

theorem JsNumber.roundHalfEven_tie_even (q : ℚ) (f : Int) (hq : q = (f : ℚ) + 1 / 2)
    (heven : f % 2 = 0) : JsNumber.roundHalfEven q = f := by
  have hf : ⌊q⌋ = f := by
    rw [Int.floor_eq_iff]
    exact ⟨by linarith, by linarith⟩
  unfold JsNumber.roundHalfEven
  rw [hf, if_neg (by linarith), if_neg (by linarith), if_pos heven]

theorem JsNumber.log_eq_of_bounds (q : ℚ) (e : Int) (hlo : (2 : ℚ) ^ e ≤ |q|)
    (hhi : |q| < (2 : ℚ) ^ (e + 1)) : Int.log 2 |q| = e := by
  have hpos : (0 : ℚ) < |q| := lt_of_lt_of_le (by positivity) hlo
  have h1 : e ≤ Int.log 2 |q| := by
    rw [← Int.zpow_le_iff_le_log (by norm_num : 1 < 2) hpos]
    exact_mod_cast hlo
  have h2 : Int.log 2 |q| < e + 1 := by
    rw [← Int.lt_zpow_iff_log_lt (by norm_num : 1 < 2) hpos]
    exact_mod_cast hhi
  omega

theorem JsNumber.round_eq (q : ℚ) (e n : Int) (hlo : (2 : ℚ) ^ e ≤ |q|)
    (hhi : |q| < (2 : ℚ) ^ (e + 1))
    (hn : JsNumber.roundHalfEven (q / (2 : ℚ) ^ (e - 52)) = n) :
    JsNumber.round q = (n : ℚ) * (2 : ℚ) ^ (e - 52) := by
  have hpos : (0 : ℚ) < |q| := lt_of_lt_of_le (by positivity) hlo
  have hq : q ≠ 0 := abs_pos.mp hpos
  unfold JsNumber.round
  rw [if_neg hq, JsNumber.log_eq_of_bounds q e hlo hhi, hn]

/-- An integer below `2^53` in absolute value is a JavaScript number. -/
theorem JsNumber.round_intCast (n : Int) (hn : |n| < 2 ^ 53) :
    JsNumber.round (n : ℚ) = n := by
  by_cases h0 : n = 0
  · subst h0
    simp [JsNumber.round]
  have hq : (n : ℚ) ≠ 0 := by exact_mod_cast h0
  have hpos : (0 : ℚ) < |(n : ℚ)| := abs_pos.mpr hq
  have hone : (1 : ℚ) ≤ |(n : ℚ)| := by
    have : (1 : Int) ≤ |n| := Int.one_le_abs h0
    exact_mod_cast this
  have hlt : |(n : ℚ)| < 2 ^ 53 := by exact_mod_cast hn
  have he0 : 0 ≤ Int.log 2 |(n : ℚ)| := by
    rw [← Int.zpow_le_iff_le_log (by norm_num : 1 < 2) hpos]
    simpa using hone
  have he1 : Int.log 2 |(n : ℚ)| < 53 := by
    rw [← Int.lt_zpow_iff_log_lt (by norm_num : 1 < 2) hpos]
    exact_mod_cast hlt
  obtain ⟨k, hk⟩ : ∃ k : Nat, (k : Int) = 52 - Int.log 2 |(n : ℚ)| :=
    ⟨(52 - Int.log 2 |(n : ℚ)|).toNat, Int.toNat_of_nonneg (by omega)⟩
  have hexp : Int.log 2 |(n : ℚ)| - 52 = -(k : Int) := by omega
  unfold JsNumber.round
  rw [if_neg hq, hexp, zpow_neg, zpow_natCast]
  have h2 : ((2 : ℚ) ^ k) ≠ 0 := by positivity
  have hscaled : (n : ℚ) / ((2 : ℚ) ^ k)⁻¹ = ((n * 2 ^ k : Int) : ℚ) := by
    push_cast
    field_simp
  rw [hscaled, JsNumber.roundHalfEven_intCast]
  push_cast
  field_simp

theorem JsNumber.roundHalfEven_tie_odd (q : ℚ) (f : Int) (hq : q = (f : ℚ) + 1 / 2)
    (hodd : f % 2 = 1) : JsNumber.roundHalfEven q = f + 1 := by
  have hf : ⌊q⌋ = f := by
    rw [Int.floor_eq_iff]
    exact ⟨by linarith, by linarith⟩
  have hne : ¬ f % 2 = 0 := by omega
  unfold JsNumber.roundHalfEven
  rw [hf, if_neg (by linarith), if_neg (by linarith), if_neg hne]

/-- A rational that is an integer below `2^53` in absolute value is a
JavaScript number. -/
theorem JsNumber.round_of_int (q : ℚ) (n : Int) (hq : q = (n : ℚ)) (hn : |n| < 2 ^ 53) :
    JsNumber.round q = q := by
  rw [hq]
  exact JsNumber.round_intCast n hn

/-- Where the product, the quotient and the sum of the blend are JavaScript
numbers, the double arithmetic returns the exact value. -/
theorem getRate.blend_eq_of_exact (rate tierRate precision : ℚ)
    (hmul : JsNumber.round (rate * tierRate) = rate * tierRate)
    (hdiv : JsNumber.round (rate * tierRate / precision) = rate * tierRate / precision)
    (hadd : JsNumber.round (rate + rate * tierRate / precision) =
      rate + rate * tierRate / precision) :
    getRate.blend rate tierRate precision = rate + rate * tierRate / precision := by
  unfold getRate.blend
  rw [hmul, hdiv, hadd]

theorem getRate.blend_10_4005 :
    getRate.blend 10 4005 (10 ^ 4) = 7884114097665474 / 2 ^ 49 := by
  have hmul : JsNumber.round ((10 : ℚ) * 4005) = 40050 :=
    (JsNumber.round_of_int _ 40050 (by norm_num) (by norm_num)).trans (by norm_num)
  have hdiv : JsNumber.round ((40050 : ℚ) / 10 ^ 4) = 4509229126904709 / 2 ^ 50 := by
    rw [JsNumber.round_eq _ 2 4509229126904709 (by rw [abs_of_pos] <;> norm_num)
      (by rw [abs_of_pos] <;> norm_num)
      (JsNumber.roundHalfEven_eq_of_near _ _ (by norm_num) (by norm_num))]
    norm_num
  have hadd : JsNumber.round ((10 : ℚ) + 4509229126904709 / 2 ^ 50) =
      7884114097665474 / 2 ^ 49 := by
    rw [JsNumber.round_eq _ 3 7884114097665474 (by rw [abs_of_pos] <;> norm_num)
      (by rw [abs_of_pos] <;> norm_num)
      (JsNumber.roundHalfEven_tie_even _ _ (by norm_num) (by decide))]
    norm_num
  unfold getRate.blend
  rw [hmul, hdiv, hadd]

theorem getRate.blend_10_4030 :
    getRate.blend 10 4030 (10 ^ 4) = 7898187846501008 / 2 ^ 49 := by
  have hmul : JsNumber.round ((10 : ℚ) * 4030) = 40300 :=
    (JsNumber.round_of_int _ 40300 (by norm_num) (by norm_num)).trans (by norm_num)
  have hdiv : JsNumber.round ((40300 : ℚ) / 10 ^ 4) = 4537376624575775 / 2 ^ 50 := by
    rw [JsNumber.round_eq _ 2 4537376624575775 (by rw [abs_of_pos] <;> norm_num)
      (by rw [abs_of_pos] <;> norm_num)
      (JsNumber.roundHalfEven_eq_of_near _ _ (by norm_num) (by norm_num))]
    norm_num
  have hadd : JsNumber.round ((10 : ℚ) + 4537376624575775 / 2 ^ 50) =
      7898187846501008 / 2 ^ 49 := by
    rw [JsNumber.round_eq _ 3 (7898187846501007 + 1) (by rw [abs_of_pos] <;> norm_num)
      (by rw [abs_of_pos] <;> norm_num)
      (JsNumber.roundHalfEven_tie_odd _ _ (by norm_num) (by decide))]
    norm_num
  unfold getRate.blend
  rw [hmul, hdiv, hadd]

/-! ## Tier lookup and rate -/

/-- C1: for every tier table and every volume, `getVolumeMultiplier(volume)`
returns a tier exactly when that tier sits at the largest index whose threshold
in wei is at most the volume, and returns `null` exactly when no tier of the
table has a threshold at most the volume. -/
theorem getVolumeMultiplier_highest_qualifying (util : Util) (m : Helper) (volume : Int) :
    (∀ vm, getVolumeMultiplier util m volume = some vm ↔
      ∃ k, m.config.crowdsale.volumeMultipliers[k]? = some vm ∧
        util.getWeiValue vm.threshold ≤ volume ∧
        ∀ (j : Nat) (t : VolumeMultiplier), k < j →
          m.config.crowdsale.volumeMultipliers[j]? = some t →
          volume < util.getWeiValue t.threshold) ∧
    (getVolumeMultiplier util m volume = none ↔
      ∀ t ∈ m.config.crowdsale.volumeMultipliers, volume < util.getWeiValue t.threshold) :=
  ⟨fun vm => getVolumeMultiplier_eq_some_iff util m volume vm,
    getVolumeMultiplier_eq_none_iff util m volume⟩

/-- C2, where the double arithmetic is exact: when the phase uses volume
multipliers, tier `t` is the tier of largest index whose threshold is at most
the supplied amount, and the product `baseRate * t.rate`, its quotient by the
scale and the sum with the base rate are JavaScript numbers, `getRate` is
`baseRate + baseRate * t.rate / scale`, with `scale` the precision scale that
`setup` bound, and that is the value the double arithmetic of the code
returns. -/
theorem getRate_with_tier (util : Util) (cfg : Config) (scale : ℚ) (phase : Int) (p : Phase)
    (amount : Int) (k : Nat) (t : VolumeMultiplier)
    (_hscale : scale ≠ 0)
    (hp : index cfg.crowdsale.phases phase = some p)
    (hflag : p.usesVolumeMultiplier = true)
    (ht : cfg.crowdsale.volumeMultipliers[k]? = some t)
    (hq : util.getWeiValue t.threshold ≤ amount)
    (hmax : ∀ (j : Nat) (u : VolumeMultiplier), k < j →
      cfg.crowdsale.volumeMultipliers[j]? = some u → amount < util.getWeiValue u.threshold)
    (hmul : JsNumber.round (p.rate * t.rate) = p.rate * t.rate)
    (hdiv : JsNumber.round (p.rate * t.rate / scale) = p.rate * t.rate / scale)
    (hadd : JsNumber.round (p.rate + p.rate * t.rate / scale) =
      p.rate + p.rate * t.rate / scale) :
    getRate util (setup cfg scale) phase (some amount) =
        .ok (p.rate + p.rate * t.rate / scale) ∧
      getRate.blend p.rate t.rate scale = p.rate + p.rate * t.rate / scale := by
  have hvm : getVolumeMultiplier util (setup cfg scale) amount = some t :=
    (getVolumeMultiplier_eq_some_iff util (setup cfg scale) amount t).mpr ⟨k, ht, hq, hmax⟩
  have hp2 : index (setup cfg scale).config.crowdsale.phases phase = some p := hp
  refine ⟨?_, getRate.blend_eq_of_exact p.rate t.rate scale hmul hdiv hadd⟩
  unfold getRate
  rw [hp2]
  simp only [hflag, hvm]
  rfl

/-- The rate of the worked example at 50 ether, through `getRate_with_tier`:
the scale of four decimal digits is `10^4`, the first tier applies, and the
product 4000000, the quotient 400 and the sum 1400 are integers. -/
theorem getRate_with_tier_witness :
    getRate specUtil (setup exampleConfig (precisionScale 4)) 0 (some (ether 50)) =
        .ok (1000 + 1000 * 4000 / 10 ^ 4) ∧
      getRate.blend 1000 4000 (10 ^ 4) = 1000 + 1000 * 4000 / 10 ^ 4 :=
  getRate_with_tier specUtil exampleConfig (precisionScale 4) 0
    { duration := ⟨1, .days⟩, rate := 1000, lockupPeriod := none, usesVolumeMultiplier := true }
    (ether 50) 0 { rate := 4000, lockupPeriod := 0, threshold := ⟨1, .ether⟩ }
    (by norm_num [precisionScale]) (by rfl) (by rfl) (by rfl)
    (by decide)
    (by
      intro j u hj hu
      match j, hj, hu with
      | 1, _, hu =>
        have : u = { rate := 5000, lockupPeriod := 0, threshold := ⟨100, .ether⟩ } := by
          simpa [exampleConfig] using hu.symm
        subst this
        decide
      | j + 2, _, hu => simp [exampleConfig] at hu)
    (JsNumber.round_of_int _ 4000000 (by norm_num) (by norm_num))
    (JsNumber.round_of_int _ 400 (by norm_num [precisionScale]) (by norm_num))
    (JsNumber.round_of_int _ 1400 (by norm_num [precisionScale]) (by norm_num))

/-- C2 fails as stated: with the base rate 10, the tier of rate 4005 at one
ether and the scale `10^4`, the tier applies at 50 ether and the double
arithmetic of the code returns `7884114097665474 / 2^49`
(14.004999999999999), which is neither the exact value `14.005` of
`baseRate + baseRate * t.rate / scale` nor the JavaScript number nearest to
it. -/
theorem getRate_blend_not_exact :
    (index roundingConfig.crowdsale.phases 0).map
        (fun p => (p.rate, p.usesVolumeMultiplier)) = some (10, true) ∧
      (getVolumeMultiplier specUtil (setup roundingConfig (precisionScale 4)) (ether 50)).map
        (fun t => t.rate) = some 4005 ∧
      precisionScale 4 = 10 ^ 4 ∧
      getRate.blend 10 4005 (10 ^ 4) = 7884114097665474 / 2 ^ 49 ∧
      JsNumber.round (10 + 10 * 4005 / 10 ^ 4) = 7884114097665475 / 2 ^ 49 ∧
      getRate.blend 10 4005 (10 ^ 4) ≠ 10 + 10 * 4005 / 10 ^ 4 := by
  refine ⟨?_, ?_, rfl, getRate.blend_10_4005, ?_, ?_⟩
  · simp [index, roundingConfig]
  · norm_num [setup, roundingConfig, getVolumeMultiplier, getVolumeMultiplier.loop, specUtil,
      ether]
  · rw [JsNumber.round_eq _ 3 7884114097665475 (by rw [abs_of_pos] <;> norm_num)
      (by rw [abs_of_pos] <;> norm_num)
      (JsNumber.roundHalfEven_eq_of_near _ _ (by norm_num) (by norm_num))]
    norm_num
  · rw [getRate.blend_10_4005]
    norm_num

/-- C3: for every valid phase index, when the phase does not use volume
multipliers (whatever amount is given) or no amount is supplied (whatever the
flag), `getRate` returns exactly the rate of the phase. -/
theorem getRate_base_without_multiplier (util : Util) (m : Helper) (phase : Int) (p : Phase)
    (value : Option Int)
    (hp : index m.config.crowdsale.phases phase = some p)
    (h : p.usesVolumeMultiplier = false ∨ value = none) :
    getRate util m phase value = .ok p.rate := by
  unfold getRate
  rw [hp]
  rcases h with h | h
  · simp [h]
  · subst h
    cases hb : p.usesVolumeMultiplier <;> simp

/-- The break phase of the test network (flag off) with an amount of 50 ether,
and its presale phase (flag on) without an amount: both yield the rate of the
phase. -/
theorem getRate_base_without_multiplier_witness :
    getRate specUtil testHelper 1 (some (ether 50)) = .ok 0 ∧
      getRate specUtil testHelper 0 none = .ok 1000 :=
  ⟨getRate_base_without_multiplier specUtil testHelper 1
      { duration := ⟨15, .days⟩, rate := 0, lockupPeriod := none,
        usesVolumeMultiplier := false }
      (some (ether 50)) (by rfl) (Or.inl rfl),
    getRate_base_without_multiplier specUtil testHelper 0
      { duration := ⟨16, .days⟩, rate := 1000, lockupPeriod := some ⟨30, .days⟩,
        usesVolumeMultiplier := true }
      none (by rfl) (Or.inr rfl)⟩

/-- C4: for every valid phase index, whatever the flag of the phase, an amount
strictly below every tier threshold of the table (that is, below the smallest
one) leaves the rate of the phase unchanged. -/
theorem getRate_below_smallest_threshold (util : Util) (m : Helper) (phase : Int) (p : Phase)
    (amount : Int)
    (hp : index m.config.crowdsale.phases phase = some p)
    (hbelow : ∀ t ∈ m.config.crowdsale.volumeMultipliers,
      amount < util.getWeiValue t.threshold) :
    getRate util m phase (some amount) = .ok p.rate := by
  have hvm : getVolumeMultiplier util m amount = none :=
    (getVolumeMultiplier_eq_none_iff util m amount).mpr hbelow
  unfold getRate
  rw [hp]
  cases hb : p.usesVolumeMultiplier <;> simp [hb, hvm]

/-- Half an ether in the presale phase of the test network, whose smallest
threshold is one ether. -/
theorem getRate_below_smallest_threshold_witness :
    getRate specUtil testHelper 0 (some (5 * 10 ^ 17)) = .ok 1000 :=
  getRate_below_smallest_threshold specUtil testHelper 0
    { duration := ⟨16, .days⟩, rate := 1000, lockupPeriod := some ⟨30, .days⟩,
      usesVolumeMultiplier := true }
    (5 * 10 ^ 17) (by rfl)
    (by
      intro t ht
      simp only [testHelper, setup, testConfig, configVolumeMultipliers, List.mem_cons,
        List.mem_singleton, List.not_mem_nil, or_false] at ht
      rcases ht with h | h | h | h | h | h <;> subst h <;> decide)

/-- C5, where the double arithmetic is exact: with a non-empty tier table of
strictly increasing thresholds and a phase that uses volume multipliers, every
amount at or above the largest threshold selects the last tier, which is the
tier of largest threshold; and where the product `baseRate * lastTier.rate`,
its quotient by the scale and the sum with the base rate are JavaScript
numbers, `getRate` is `baseRate + baseRate * lastTier.rate / scale`, the value
the double arithmetic of the code returns, in which the amount does not
occur. -/
theorem getRate_at_or_above_largest_threshold (util : Util) (cfg : Config) (scale : ℚ)
    (phase : Int) (p : Phase) (amount : Int)
    (_hscale : scale ≠ 0)
    (hp : index cfg.crowdsale.phases phase = some p)
    (hflag : p.usesVolumeMultiplier = true)
    (hne : cfg.crowdsale.volumeMultipliers ≠ [])
    (hsorted : cfg.crowdsale.volumeMultipliers.Pairwise
      (fun a b => util.getWeiValue a.threshold < util.getWeiValue b.threshold))
    (hamount : ∀ t ∈ cfg.crowdsale.volumeMultipliers, util.getWeiValue t.threshold ≤ amount) :
    (∀ t ∈ cfg.crowdsale.volumeMultipliers,
      util.getWeiValue t.threshold ≤
        util.getWeiValue (cfg.crowdsale.volumeMultipliers.getLast hne).threshold) ∧
    getVolumeMultiplier util (setup cfg scale) amount =
      some (cfg.crowdsale.volumeMultipliers.getLast hne) ∧
    (JsNumber.round (p.rate * (cfg.crowdsale.volumeMultipliers.getLast hne).rate) =
        p.rate * (cfg.crowdsale.volumeMultipliers.getLast hne).rate →
      JsNumber.round (p.rate * (cfg.crowdsale.volumeMultipliers.getLast hne).rate / scale) =
        p.rate * (cfg.crowdsale.volumeMultipliers.getLast hne).rate / scale →
      JsNumber.round
          (p.rate + p.rate * (cfg.crowdsale.volumeMultipliers.getLast hne).rate / scale) =
        p.rate + p.rate * (cfg.crowdsale.volumeMultipliers.getLast hne).rate / scale →
      getRate util (setup cfg scale) phase (some amount) =
          .ok (p.rate + p.rate * (cfg.crowdsale.volumeMultipliers.getLast hne).rate / scale) ∧
        getRate.blend p.rate (cfg.crowdsale.volumeMultipliers.getLast hne).rate scale =
          p.rate + p.rate * (cfg.crowdsale.volumeMultipliers.getLast hne).rate / scale) := by
  have hlen : 0 < cfg.crowdsale.volumeMultipliers.length := List.length_pos.mpr hne
  have hlast : cfg.crowdsale.volumeMultipliers.getLast hne =
      cfg.crowdsale.volumeMultipliers[cfg.crowdsale.volumeMultipliers.length - 1] :=
    List.getLast_eq_getElem _ hne
  have hvm : getVolumeMultiplier util (setup cfg scale) amount =
      some (cfg.crowdsale.volumeMultipliers.getLast hne) := by
    rw [getVolumeMultiplier_eq_some_iff]
    refine ⟨cfg.crowdsale.volumeMultipliers.length - 1, ?_, ?_, ?_⟩
    · show cfg.crowdsale.volumeMultipliers[cfg.crowdsale.volumeMultipliers.length - 1]? = _
      rw [hlast, List.getElem?_eq_getElem]
    · exact hamount _ (List.getLast_mem hne)
    · intro j u hj hu
      have hju : j < cfg.crowdsale.volumeMultipliers.length :=
        (List.getElem?_eq_some_iff.mp hu).1
      omega
  refine ⟨?_, hvm, ?_⟩
  · intro t ht
    obtain ⟨i, hi, hit⟩ := List.getElem_of_mem ht
    rw [hlast, ← hit]
    rcases Nat.lt_or_ge i (cfg.crowdsale.volumeMultipliers.length - 1) with hlt | hge
    · exact le_of_lt (List.pairwise_iff_getElem.mp hsorted i
        (cfg.crowdsale.volumeMultipliers.length - 1) hi (by omega) hlt)
    · have hieq : i = cfg.crowdsale.volumeMultipliers.length - 1 := by omega
      subst hieq
      exact le_refl _
  · intro hmul hdiv hadd
    have hp2 : index (setup cfg scale).config.crowdsale.phases phase = some p := hp
    refine ⟨?_, getRate.blend_eq_of_exact _ _ _ hmul hdiv hadd⟩
    unfold getRate
    rw [hp2]
    simp only [hflag, hvm]
    rfl

/-- The worked example at 200 ether: both thresholds (1 and 100 ether) are at
most the amount, so the last tier applies; the product 5000000, the quotient
500 and the sum 1500 are integers. -/
theorem getRate_at_or_above_largest_threshold_witness :
    getRate specUtil (setup exampleConfig (precisionScale 4)) 0 (some (ether 200)) =
        .ok (1000 + 1000 * 5000 / 10 ^ 4) ∧
      getRate.blend 1000 5000 (10 ^ 4) = 1000 + 1000 * 5000 / 10 ^ 4 :=
  (getRate_at_or_above_largest_threshold specUtil exampleConfig (precisionScale 4) 0
    { duration := ⟨1, .days⟩, rate := 1000, lockupPeriod := none, usesVolumeMultiplier := true }
    (ether 200) (by norm_num [precisionScale]) (by rfl) (by rfl)
    (by simp [exampleConfig])
    (by simp [exampleConfig]; decide)
    (by
      intro t ht
      simp only [exampleConfig, List.mem_cons, List.mem_singleton, List.not_mem_nil,
        or_false] at ht
      rcases ht with h | h <;> subst h <;> decide)).2.2
    (JsNumber.round_of_int _ 5000000 (by norm_num [exampleConfig]) (by norm_num))
    (JsNumber.round_of_int _ 500 (by norm_num [exampleConfig, precisionScale]) (by norm_num))
    (JsNumber.round_of_int _ 1500 (by norm_num [exampleConfig, precisionScale]) (by norm_num))

/-- C5 fails as stated: with the base rate 10, the last tier of rate 4030 at
100 ether and the scale `10^4`, the last tier applies at 200 ether and the
double arithmetic of the code returns `7898187846501008 / 2^49`
(14.030000000000001), which is neither the exact value `14.03` of
`baseRate + baseRate * lastTier.rate / scale` nor the JavaScript number nearest
to it. -/
theorem getRate_blend_last_tier_not_exact :
    (index roundingConfig.crowdsale.phases 0).map
        (fun p => (p.rate, p.usesVolumeMultiplier)) = some (10, true) ∧
      roundingConfig.crowdsale.volumeMultipliers.Pairwise
        (fun a b => specUtil.getWeiValue a.threshold < specUtil.getWeiValue b.threshold) ∧
      (∀ t ∈ roundingConfig.crowdsale.volumeMultipliers,
        specUtil.getWeiValue t.threshold ≤ ether 200) ∧
      (getVolumeMultiplier specUtil (setup roundingConfig (precisionScale 4)) (ether 200)).map
        (fun t => t.rate) = some 4030 ∧
      precisionScale 4 = 10 ^ 4 ∧
      getRate.blend 10 4030 (10 ^ 4) = 7898187846501008 / 2 ^ 49 ∧
      JsNumber.round (10 + 10 * 4030 / 10 ^ 4) = 7898187846501007 / 2 ^ 49 ∧
      getRate.blend 10 4030 (10 ^ 4) ≠ 10 + 10 * 4030 / 10 ^ 4 := by
  refine ⟨?_, ?_, ?_, ?_, rfl, getRate.blend_10_4030, ?_, ?_⟩
  · simp [index, roundingConfig]
  · simp [roundingConfig]
    decide
  · intro t ht
    simp only [roundingConfig, List.mem_cons, List.mem_singleton, List.not_mem_nil,
      or_false] at ht
    rcases ht with h | h <;> subst h <;> decide
  · norm_num [setup, roundingConfig, getVolumeMultiplier, getVolumeMultiplier.loop, specUtil,
      ether]
  · rw [JsNumber.round_eq _ 3 7898187846501007 (by rw [abs_of_pos] <;> norm_num)
      (by rw [abs_of_pos] <;> norm_num)
      (JsNumber.roundHalfEven_eq_of_near _ _ (by norm_num) (by norm_num))]
    norm_num
  · rw [getRate.blend_10_4030]
    norm_num

/-- C6: the worked example. With one phase of rate 1000 that uses volume
multipliers, tiers at 1 ether (rate 4000) and 100 ether (rate 5000), and the
scale `10^4` of precision 4 bound by `setup`: `getRate(0, 50 ether) = 1400`,
`getRate(0, 200 ether) = 1500` and `getRate(0, 0.5 ether) = 1000`. -/
theorem getRate_worked_example :
    getRate specUtil (setup exampleConfig (precisionScale 4)) 0 (some (ether 50)) = .ok 1400 ∧
    getRate specUtil (setup exampleConfig (precisionScale 4)) 0 (some (ether 200)) = .ok 1500 ∧
    getRate specUtil (setup exampleConfig (precisionScale 4)) 0 (some (5 * 10 ^ 17)) =
      .ok 1000 := by
  refine ⟨?_, ?_, ?_⟩ <;>
    norm_num [getRate, setup, exampleConfig, index, getVolumeMultiplier,
      getVolumeMultiplier.loop, specUtil, ether, precisionScale]

/-- The rate computation divides by the value `setup` bound, as it is: binding
the digit count `4` itself, instead of the scale `10^4`, gives another rate. -/
theorem getRate_divides_by_bound_value :
    getRate specUtil (setup exampleConfig 4) 0 (some (ether 50)) = .ok 1001000 := by
  norm_num [getRate, setup, exampleConfig, index, getVolumeMultiplier,
    getVolumeMultiplier.loop, specUtil, ether]

/-! ## Lemmas on the phase segmentation -/

theorem startingPhaseIndex_loop_eq_some_iff (phases : List Phase) (s : Nat) :
    ∀ (n i : Nat), phases.length - i = n →
      (publicsale.getStartingPhaseIndex.loop phases i = some s ↔
        i ≤ s ∧ (∃ p, phases[s]? = some p ∧ 0 < p.rate) ∧
          ∀ (j : Nat) (p : Phase), i ≤ j → j < s → phases[j]? = some p → p.rate ≤ 0) := by
  intro n
  induction n with
  | zero =>
    intro i hn
    have hi : ¬ i < phases.length := by omega
    rw [publicsale.getStartingPhaseIndex.loop, dif_neg hi]
    constructor
    · intro h; cases h
    · rintro ⟨his, ⟨p, hp, _⟩, _⟩
      have := (List.getElem?_eq_some_iff.mp hp).1
      omega
  | succ n ih =>
    intro i hn
    have hi : i < phases.length := by omega
    have hget : phases[i]? = some phases[i] := List.getElem?_eq_getElem hi
    rw [publicsale.getStartingPhaseIndex.loop, dif_pos hi]
    by_cases hr : phases[i].rate > 0
    · rw [if_pos hr]
      constructor
      · intro h
        have hs : i = s := Option.some.inj h
        subst hs
        exact ⟨le_refl _, ⟨phases[i], hget, hr⟩, fun j p h1 h2 => by omega⟩
      · rintro ⟨his, _, hmin⟩
        rcases Nat.lt_or_ge i s with hlt | hge
        · exact absurd hr (not_lt.mpr (hmin i phases[i] (le_refl _) hlt hget))
        · have : i = s := by omega
          rw [this]
    · rw [if_neg hr, ih (i + 1) (by omega)]
      constructor
      · rintro ⟨his, hpos, hmin⟩
        refine ⟨by omega, hpos, ?_⟩
        intro j p hij hjs hjp
        rcases Nat.eq_or_lt_of_le hij with heq | hlt
        · subst heq
          rw [hget] at hjp
          have : phases[i] = p := Option.some.inj hjp
          rw [← this]
          exact not_lt.mp hr
        · exact hmin j p hlt hjs hjp
      · rintro ⟨his, ⟨p, hp, hpr⟩, hmin⟩
        have hne : i ≠ s := by
          intro heq
          subst heq
          rw [hget] at hp
          have : phases[i] = p := Option.some.inj hp
          rw [← this] at hpr
          exact hr hpr
        exact ⟨by omega, ⟨p, hp, hpr⟩, fun j q hij hjs hjq => hmin j q (by omega) hjs hjq⟩

theorem startingPhaseIndex_loop_eq_none_iff (phases : List Phase) :
    ∀ (n i : Nat), phases.length - i = n →
      (publicsale.getStartingPhaseIndex.loop phases i = none ↔
        ∀ (j : Nat) (p : Phase), i ≤ j → phases[j]? = some p → p.rate ≤ 0) := by
  intro n
  induction n with
  | zero =>
    intro i hn
    have hi : ¬ i < phases.length := by omega
    rw [publicsale.getStartingPhaseIndex.loop, dif_neg hi]
    constructor
    · intro _ j p hij hjp
      have := (List.getElem?_eq_some_iff.mp hjp).1
      omega
    · intro _; rfl
  | succ n ih =>
    intro i hn
    have hi : i < phases.length := by omega
    have hget : phases[i]? = some phases[i] := List.getElem?_eq_getElem hi
    rw [publicsale.getStartingPhaseIndex.loop, dif_pos hi]
    by_cases hr : phases[i].rate > 0
    · rw [if_pos hr]
      constructor
      · intro h; cases h
      · intro hall
        exact absurd hr (not_lt.mpr (hall i phases[i] (le_refl _) hget))
    · rw [if_neg hr, ih (i + 1) (by omega)]
      constructor
      · intro hall j p hij hjp
        rcases Nat.eq_or_lt_of_le hij with heq | hlt
        · subst heq
          rw [hget] at hjp
          have : phases[i] = p := Option.some.inj hjp
          rw [← this]
          exact not_lt.mp hr
        · exact hall j p hlt hjp
      · intro hall j p hij hjp
        exact hall j p (by omega) hjp

theorem publicsale.getStartingPhaseIndex_eq_some_iff (m : Helper) (s : Nat) :
    publicsale.getStartingPhaseIndex m = some s ↔
      1 ≤ s ∧ (∃ p, m.config.crowdsale.phases[s]? = some p ∧ 0 < p.rate) ∧
        ∀ (j : Nat) (p : Phase), 1 ≤ j → j < s →
          m.config.crowdsale.phases[j]? = some p → p.rate ≤ 0 :=
  startingPhaseIndex_loop_eq_some_iff m.config.crowdsale.phases s _ 1 rfl

theorem publicsale.getStartingPhaseIndex_eq_none_iff (m : Helper) :
    publicsale.getStartingPhaseIndex m = none ↔
      ∀ (j : Nat) (p : Phase), 1 ≤ j → m.config.crowdsale.phases[j]? = some p → p.rate ≤ 0 :=
  startingPhaseIndex_loop_eq_none_iff m.config.crowdsale.phases _ 1 rfl

/-- A positive-rate phase at an index from `1` on makes the start index
defined, and at most that index. -/
theorem publicsale.getStartingPhaseIndex_isSome (m : Helper) (i : Nat) (q : Phase)
    (hi : 1 ≤ i) (hq : m.config.crowdsale.phases[i]? = some q) (hpos : 0 < q.rate) :
    ∃ s, publicsale.getStartingPhaseIndex m = some s ∧ s ≤ i := by
  cases hs : publicsale.getStartingPhaseIndex m with
  | none =>
    have := (publicsale.getStartingPhaseIndex_eq_none_iff m).mp hs i q hi hq
    exact absurd hpos (not_lt.mpr this)
  | some s =>
    refine ⟨s, rfl, ?_⟩
    obtain ⟨_, _, hmin⟩ := (publicsale.getStartingPhaseIndex_eq_some_iff m s).mp hs
    by_contra hlt
    exact absurd hpos (not_lt.mpr (hmin i q hi (by omega) hq))

theorem slice_zero_some {α : Type} (xs : List α) (s : Nat) :
    slice xs (some 0) (some s) = xs.take s := by
  simp [slice]

theorem slice_some_none {α : Type} (xs : List α) (s : Nat) :
    slice xs (some s) none = xs.drop s := by
  simp [slice]

theorem slice_zero_none {α : Type} (xs : List α) : slice xs (some 0) none = xs := by
  simp [slice]

theorem slice_none_none {α : Type} (xs : List α) : slice xs none none = xs := by
  simp [slice]

theorem foldl_duration_eq_sum (f : Phase → Nat) (phases : List Phase) :
    ∀ a : Nat, phases.foldl (fun duration phase => duration + f phase) a =
      a + (phases.map f).sum := by
  induction phases with
  | nil => intro a; simp
  | cons p ps ih => intro a; simp [List.foldl_cons, ih, Nat.add_assoc]

theorem presale.getTransitionPhase_eq (m : Helper) :
    presale.getTransitionPhase m =
      match (presale.getPhases m).getLast? with
      | some last => if last.rate = 0 then some last else none
      | none => none := by
  unfold presale.getTransitionPhase
  by_cases h : (presale.getPhases m).length > 0
  · simp only [h, dite_true]
    rw [List.getLast?_eq_getElem?, List.getElem?_eq_getElem (by omega)]
  · simp only [h, dite_false]
    have : presale.getPhases m = [] := List.length_eq_zero.mp (by omega)
    rw [this]
    rfl

/-! ## Phase segmentation -/

/-- C7: when some phase at an index from `1` on has a positive rate,
`publicsale.getStartingPhaseIndex()` returns the least index `s ≥ 1` whose
phase has a positive rate: every phase at an index in `[1, s)` has a rate that
is not positive, and the answer is the same for every phase table that agrees
with this one from index `1` on, so phase `0` is not consulted. -/
theorem publicsale_getStartingPhaseIndex_least (m : Helper) (i : Nat) (q : Phase)
    (hi : 1 ≤ i) (hq : m.config.crowdsale.phases[i]? = some q) (hpos : 0 < q.rate) :
    ∃ s, publicsale.getStartingPhaseIndex m = some s ∧ 1 ≤ s ∧ s ≤ i ∧
      (∃ p, m.config.crowdsale.phases[s]? = some p ∧ 0 < p.rate) ∧
      (∀ (j : Nat) (p : Phase), 1 ≤ j → j < s →
        m.config.crowdsale.phases[j]? = some p → p.rate ≤ 0) ∧
      (∀ m2 : Helper, m2.config.crowdsale.phases.drop 1 = m.config.crowdsale.phases.drop 1 →
        publicsale.getStartingPhaseIndex m2 = some s) := by
  obtain ⟨s, hs, hsi⟩ := publicsale.getStartingPhaseIndex_isSome m i q hi hq hpos
  obtain ⟨h1, hp, hmin⟩ := (publicsale.getStartingPhaseIndex_eq_some_iff m s).mp hs
  refine ⟨s, hs, h1, hsi, hp, hmin, ?_⟩
  intro m2 hdrop
  have hsame : ∀ j : Nat, 1 ≤ j →
      m2.config.crowdsale.phases[j]? = m.config.crowdsale.phases[j]? := by
    intro j hj
    have h2 : (m2.config.crowdsale.phases.drop 1)[j - 1]? =
        (m.config.crowdsale.phases.drop 1)[j - 1]? := by rw [hdrop]
    rw [List.getElem?_drop, List.getElem?_drop] at h2
    have hj2 : 1 + (j - 1) = j := by omega
    rw [hj2] at h2
    exact h2
  rw [publicsale.getStartingPhaseIndex_eq_some_iff]
  refine ⟨h1, ?_, ?_⟩
  · rw [hsame s h1]; exact hp
  · intro j p hj hjs hjp
    rw [hsame j hj] at hjp
    exact hmin j p hj hjs hjp

/-- The test network: the public sale starts at index 2, after the presale
phase and the break. -/
theorem publicsale_getStartingPhaseIndex_least_witness :
    ∃ s, publicsale.getStartingPhaseIndex testHelper = some s ∧ 1 ≤ s ∧ s ≤ 2 ∧
      (∃ p, testHelper.config.crowdsale.phases[s]? = some p ∧ 0 < p.rate) ∧
      (∀ (j : Nat) (p : Phase), 1 ≤ j → j < s →
        testHelper.config.crowdsale.phases[j]? = some p → p.rate ≤ 0) ∧
      (∀ m2 : Helper,
        m2.config.crowdsale.phases.drop 1 = testHelper.config.crowdsale.phases.drop 1 →
        publicsale.getStartingPhaseIndex m2 = some s) :=
  publicsale_getStartingPhaseIndex_least testHelper 2
    { duration := ⟨1, .days⟩, rate := 1400, lockupPeriod := none,
      usesVolumeMultiplier := false }
    (by decide) (by rfl) (by norm_num)

/-- C8: when some phase at an index from `1` on has a positive rate and `s` is
the public-sale start index, `presale.getPhases()` is the phases at indices
`[0, s)`, `publicsale.getPhases()` is the phases from index `s` to the end, and
the first followed by the second is the whole phase table, each phase once. -/
theorem getPhases_partition (m : Helper) (i : Nat) (q : Phase)
    (hi : 1 ≤ i) (hq : m.config.crowdsale.phases[i]? = some q) (hpos : 0 < q.rate) :
    ∃ s, publicsale.getStartingPhaseIndex m = some s ∧
      presale.getPhases m = m.config.crowdsale.phases.take s ∧
      publicsale.getPhases m = m.config.crowdsale.phases.drop s ∧
      presale.getPhases m ++ publicsale.getPhases m = m.config.crowdsale.phases ∧
      (presale.getPhases m).length = s ∧
      (presale.getPhases m).length + (publicsale.getPhases m).length =
        m.config.crowdsale.phases.length := by
  obtain ⟨s, hs, _⟩ := publicsale.getStartingPhaseIndex_isSome m i q hi hq hpos
  obtain ⟨_, ⟨p, hp, _⟩, _⟩ := (publicsale.getStartingPhaseIndex_eq_some_iff m s).mp hs
  have hlt : s < m.config.crowdsale.phases.length := (List.getElem?_eq_some_iff.mp hp).1
  have hpre : presale.getPhases m = m.config.crowdsale.phases.take s := by
    unfold presale.getPhases
    rw [hs, slice_zero_some]
  have hpub : publicsale.getPhases m = m.config.crowdsale.phases.drop s := by
    unfold publicsale.getPhases
    rw [hs, slice_some_none]
  refine ⟨s, hs, hpre, hpub, ?_, ?_, ?_⟩
  · rw [hpre, hpub, List.take_append_drop]
  · rw [hpre, List.length_take]; omega
  · rw [hpre, hpub, List.length_take, List.length_drop]; omega

/-- The test network splits into two presale phases (presale and break) and
five public-sale phases. -/
theorem getPhases_partition_witness :
    ∃ s, publicsale.getStartingPhaseIndex testHelper = some s ∧
      presale.getPhases testHelper = testHelper.config.crowdsale.phases.take s ∧
      publicsale.getPhases testHelper = testHelper.config.crowdsale.phases.drop s ∧
      presale.getPhases testHelper ++ publicsale.getPhases testHelper =
        testHelper.config.crowdsale.phases ∧
      (presale.getPhases testHelper).length = s ∧
      (presale.getPhases testHelper).length + (publicsale.getPhases testHelper).length =
        testHelper.config.crowdsale.phases.length :=
  getPhases_partition testHelper 2
    { duration := ⟨1, .days⟩, rate := 1400, lockupPeriod := none,
      usesVolumeMultiplier := false }
    (by decide) (by rfl) (by norm_num)

/-- C9, as the code behaves: without a positive-rate phase at an index from `1`
on (the empty table included) no segmentation query fails.
`publicsale.getStartingPhaseIndex()` returns `undefined`, both `getPhases`
return the whole phase table, and both `getDuration` return the total duration
of the whole table. -/
theorem segmentation_without_start_index (util : Util) (m : Helper)
    (hnone : ∀ (j : Nat) (p : Phase), 1 ≤ j →
      m.config.crowdsale.phases[j]? = some p → p.rate ≤ 0) :
    publicsale.getStartingPhaseIndex m = none ∧
      presale.getPhases m = m.config.crowdsale.phases ∧
      publicsale.getPhases m = m.config.crowdsale.phases ∧
      presale.getDuration util m =
        (m.config.crowdsale.phases.map (fun p => util.getDurationValue p.duration)).sum ∧
      publicsale.getDuration util m =
        (m.config.crowdsale.phases.map (fun p => util.getDurationValue p.duration)).sum := by
  have hs : publicsale.getStartingPhaseIndex m = none :=
    (publicsale.getStartingPhaseIndex_eq_none_iff m).mpr hnone
  have hpre : presale.getPhases m = m.config.crowdsale.phases := by
    unfold presale.getPhases
    rw [hs, slice_zero_none]
  have hpub : publicsale.getPhases m = m.config.crowdsale.phases := by
    unfold publicsale.getPhases
    rw [hs, slice_none_none]
  refine ⟨hs, hpre, hpub, ?_, ?_⟩
  · unfold presale.getDuration
    rw [hpre, foldl_duration_eq_sum (fun p => util.getDurationValue p.duration)]
    simp
  · unfold publicsale.getDuration
    rw [hpub, foldl_duration_eq_sum (fun p => util.getDurationValue p.duration)]
    simp

/-- A table of a presale phase and a break only: every query returns, and both
halves are the whole table of 31 days. -/
theorem segmentation_without_start_index_witness :
    publicsale.getStartingPhaseIndex (setup noPublicsaleConfig (precisionScale 4)) = none ∧
      presale.getPhases (setup noPublicsaleConfig (precisionScale 4)) =
        noPublicsaleConfig.crowdsale.phases ∧
      publicsale.getPhases (setup noPublicsaleConfig (precisionScale 4)) =
        noPublicsaleConfig.crowdsale.phases ∧
      presale.getDuration specUtil (setup noPublicsaleConfig (precisionScale 4)) =
        (noPublicsaleConfig.crowdsale.phases.map
          (fun p => specUtil.getDurationValue p.duration)).sum ∧
      publicsale.getDuration specUtil (setup noPublicsaleConfig (precisionScale 4)) =
        (noPublicsaleConfig.crowdsale.phases.map
          (fun p => specUtil.getDurationValue p.duration)).sum :=
  segmentation_without_start_index specUtil (setup noPublicsaleConfig (precisionScale 4))
    (by
      intro j p hj hp
      match j, hj, hp with
      | 1, _, hp =>
        simp only [setup, noPublicsaleConfig, List.getElem?_cons_succ,
          List.getElem?_cons_zero, Option.some.injEq] at hp
        rw [← hp]
      | j + 2, _, hp => simp [setup, noPublicsaleConfig] at hp)

/-- C9 fails as stated: on the empty phase table, and on a table whose only
phases are a presale phase and a break, each of the five segmentation queries
returns a value (an undefined index, an empty or a whole schedule, a duration)
and none raises an error. -/
theorem segmentation_queries_return :
    (publicsale.getStartingPhaseIndex (setup emptyConfig (precisionScale 4)) = none ∧
      presale.getPhases (setup emptyConfig (precisionScale 4)) = [] ∧
      publicsale.getPhases (setup emptyConfig (precisionScale 4)) = [] ∧
      presale.getDuration specUtil (setup emptyConfig (precisionScale 4)) = 0 ∧
      publicsale.getDuration specUtil (setup emptyConfig (precisionScale 4)) = 0) ∧
    (publicsale.getStartingPhaseIndex (setup noPublicsaleConfig (precisionScale 4)) = none ∧
      (presale.getPhases (setup noPublicsaleConfig (precisionScale 4))).length = 2 ∧
      (publicsale.getPhases (setup noPublicsaleConfig (precisionScale 4))).length = 2 ∧
      presale.getDuration specUtil (setup noPublicsaleConfig (precisionScale 4)) =
        31 * 86400 ∧
      publicsale.getDuration specUtil (setup noPublicsaleConfig (precisionScale 4)) =
        31 * 86400) := by
  refine ⟨⟨?_, ?_, ?_, ?_, ?_⟩, ⟨?_, ?_, ?_, ?_, ?_⟩⟩ <;>
    simp [publicsale.getStartingPhaseIndex, publicsale.getStartingPhaseIndex.loop,
      presale.getPhases, publicsale.getPhases, presale.getDuration, publicsale.getDuration,
      slice, setup, emptyConfig, noPublicsaleConfig, specUtil]

/-- C10: with a defined public-sale start index `s`, the last phase of
`presale.getPhases()` is the phase at index `s - 1`;
`presale.hasTransitionPhase()` is true exactly when the rate of that phase is
`0`, and `presale.getTransitionPhase()` returns that phase when it is and
`null` otherwise. -/
theorem presale_transition_phase (m : Helper) (s : Nat)
    (hs : publicsale.getStartingPhaseIndex m = some s) :
    ∃ last, m.config.crowdsale.phases[s - 1]? = some last ∧
      (presale.getPhases m).getLast? = some last ∧
      (presale.hasTransitionPhase m = true ↔ last.rate = 0) ∧
      presale.getTransitionPhase m = (if last.rate = 0 then some last else none) := by
  obtain ⟨h1, ⟨p, hp, _⟩, _⟩ := (publicsale.getStartingPhaseIndex_eq_some_iff m s).mp hs
  have hlt : s < m.config.crowdsale.phases.length := (List.getElem?_eq_some_iff.mp hp).1
  have hpre : presale.getPhases m = m.config.crowdsale.phases.take s := by
    unfold presale.getPhases
    rw [hs, slice_zero_some]
  have hlast : (presale.getPhases m).getLast? =
      some (m.config.crowdsale.phases[s - 1]) := by
    rw [hpre, List.getLast?_eq_getElem?, List.length_take, Nat.min_eq_left (le_of_lt hlt),
      List.getElem?_take_of_lt (by omega), List.getElem?_eq_getElem (by omega)]
  have htrans : presale.getTransitionPhase m =
      (if (m.config.crowdsale.phases[s - 1]).rate = 0
        then some (m.config.crowdsale.phases[s - 1]) else none) := by
    rw [presale.getTransitionPhase_eq, hlast]
  refine ⟨m.config.crowdsale.phases[s - 1], List.getElem?_eq_getElem (by omega), hlast, ?_,
    htrans⟩
  unfold presale.hasTransitionPhase
  rw [htrans]
  by_cases hr : (m.config.crowdsale.phases[s - 1]).rate = 0 <;> simp [hr]

/-- The test network: the start index is 2 and the phase at index 1 is the
break, of rate 0, so the presale has a transition phase. -/
theorem presale_transition_phase_witness :
    publicsale.getStartingPhaseIndex testHelper = some 2 ∧
      ∃ last, testHelper.config.crowdsale.phases[2 - 1]? = some last ∧
        (presale.getPhases testHelper).getLast? = some last ∧
        (presale.hasTransitionPhase testHelper = true ↔ last.rate = 0) ∧
        presale.getTransitionPhase testHelper = (if last.rate = 0 then some last else none) :=
  have hs : publicsale.getStartingPhaseIndex testHelper = some 2 := by
    simp [publicsale.getStartingPhaseIndex, publicsale.getStartingPhaseIndex.loop,
      testHelper, setup, testConfig]
  ⟨hs, presale_transition_phase testHelper 2 hs⟩

/-! ## Durations and re-based rates -/

theorem publicsale.getStartingPhaseIndex_test :
    publicsale.getStartingPhaseIndex testHelper = some 2 := by
  simp [publicsale.getStartingPhaseIndex, publicsale.getStartingPhaseIndex.loop,
    testHelper, setup, testConfig]

/-- C11: with a defined public-sale start index `s`, `presale.getDuration()`
is the sum of the durations of the phases at indices `[0, s)`,
`publicsale.getDuration()` the sum of those from index `s` to the end, and the
two add up to the total duration of the phase table; for the test
configuration they are 31 days and 29 days. -/
theorem getDuration_partition (util : Util) (m : Helper) (s : Nat)
    (hs : publicsale.getStartingPhaseIndex m = some s) :
    presale.getDuration util m =
        ((m.config.crowdsale.phases.take s).map
          (fun p => util.getDurationValue p.duration)).sum ∧
      publicsale.getDuration util m =
        ((m.config.crowdsale.phases.drop s).map
          (fun p => util.getDurationValue p.duration)).sum ∧
      presale.getDuration util m + publicsale.getDuration util m =
        (m.config.crowdsale.phases.map (fun p => util.getDurationValue p.duration)).sum ∧
      presale.getDuration specUtil testHelper = specUtil.getDurationValue ⟨31, .days⟩ ∧
      publicsale.getDuration specUtil testHelper = specUtil.getDurationValue ⟨29, .days⟩ := by
  have hpre : presale.getDuration util m =
      ((m.config.crowdsale.phases.take s).map
        (fun p => util.getDurationValue p.duration)).sum := by
    unfold presale.getDuration presale.getPhases
    rw [hs, slice_zero_some, foldl_duration_eq_sum (fun p => util.getDurationValue p.duration)]
    simp
  have hpub : publicsale.getDuration util m =
      ((m.config.crowdsale.phases.drop s).map
        (fun p => util.getDurationValue p.duration)).sum := by
    unfold publicsale.getDuration publicsale.getPhases
    rw [hs, slice_some_none, foldl_duration_eq_sum (fun p => util.getDurationValue p.duration)]
    simp
  refine ⟨hpre, hpub, ?_, ?_, ?_⟩
  · rw [hpre, hpub, ← List.sum_append, ← List.map_append, List.take_append_drop]
  · unfold presale.getDuration presale.getPhases
    rw [publicsale.getStartingPhaseIndex_test]
    simp [slice, testHelper, setup, testConfig, specUtil]
  · unfold publicsale.getDuration publicsale.getPhases
    rw [publicsale.getStartingPhaseIndex_test]
    simp [slice, testHelper, setup, testConfig, specUtil]

/-- The test network, whose start index is 2: 16 + 15 days of presale and
1 + 7 + 7 + 7 + 7 days of public sale, in seconds. -/
theorem getDuration_partition_witness :
    presale.getDuration specUtil testHelper = 31 * 86400 ∧
      publicsale.getDuration specUtil testHelper = 29 * 86400 ∧
      presale.getDuration specUtil testHelper + publicsale.getDuration specUtil testHelper =
        60 * 86400 := by
  have h := getDuration_partition specUtil testHelper 2 publicsale.getStartingPhaseIndex_test
  refine ⟨?_, ?_, ?_⟩
  · rw [h.1]; simp [testHelper, setup, testConfig, specUtil]
  · rw [h.2.1]; simp [testHelper, setup, testConfig, specUtil]
  · rw [h.2.2.1]; simp [testHelper, setup, testConfig, specUtil]

theorem index_ofNat {α : Type} (xs : List α) (i : Nat) : index xs (i : Int) = xs[i]? := by
  unfold index
  have h : ¬ ((i : Int) < 0) := by omega
  rw [if_neg h, Int.toNat_ofNat]

/-- C12: `publicsale.getRate(k, amount)` is
`getRate(publicsale.getStartingPhaseIndex() + k, amount)` for every relative
index `k` and every amount, and throws like it when the start index is
undefined. With start index `s`, the phase the call reads at a relative index
`k ≥ 0` is the `k`-th public-sale phase, and `publicsale.getRate(0)` is the rate
of the phase at `s`, the first phase after index `0` with a positive rate.
`presale.getRate(k, amount)` is `getRate(k, amount)`. -/
theorem publicsale_getRate_rebased (util : Util) (m : Helper) :
    (∀ (k : Int) (value : Option Int),
      publicsale.getRate util m k value =
        match publicsale.getStartingPhaseIndex m with
        | some s => getRate util m ((s : Int) + k) value
        | none => .error .typeError) ∧
    (∀ s : Nat, publicsale.getStartingPhaseIndex m = some s →
      (∀ k : Nat, index m.config.crowdsale.phases ((s : Int) + (k : Int)) =
        (publicsale.getPhases m)[k]?) ∧
      ∃ p, m.config.crowdsale.phases[s]? = some p ∧ 0 < p.rate ∧
        (∀ (j : Nat) (q : Phase), 1 ≤ j → j < s →
          m.config.crowdsale.phases[j]? = some q → q.rate ≤ 0) ∧
        (∀ value, publicsale.getRate util m 0 value = getRate util m (s : Int) value) ∧
        publicsale.getRate util m 0 none = .ok p.rate) ∧
    (∀ (k : Int) (value : Option Int),
      presale.getRate util m k value = getRate util m k value) := by
  refine ⟨?_, ?_, ?_⟩
  · intro k value
    unfold publicsale.getRate
    cases publicsale.getStartingPhaseIndex m <;> rfl
  · intro s hs
    obtain ⟨_, ⟨p, hp, hpos⟩, hmin⟩ := (publicsale.getStartingPhaseIndex_eq_some_iff m s).mp hs
    have h0 : ∀ value, publicsale.getRate util m 0 value = getRate util m (s : Int) value := by
      intro value
      unfold publicsale.getRate
      rw [hs]
      simp
    refine ⟨?_, p, hp, hpos, hmin, h0, ?_⟩
    · intro k
      have hcast : ((s : Int) + (k : Int)) = ((s + k : Nat) : Int) := by push_cast; rfl
      rw [hcast, index_ofNat]
      unfold publicsale.getPhases
      rw [hs, slice_some_none, List.getElem?_drop]
    · rw [h0 none]
      unfold getRate
      rw [index_ofNat, hp]
      cases hb : p.usesVolumeMultiplier <;> simp
  · intro k value
    rfl

/-! ## Lemmas on the token value -/

theorem BigNumber.roundHalfUp_intCast (z : Int) : BigNumber.roundHalfUp (z : ℚ) = z := by
  unfold BigNumber.roundHalfUp
  split
  · rw [Int.floor_eq_iff]
    constructor <;> norm_num
  · have : ⌊-(z : ℚ) + 1 / 2⌋ = -z := by
      rw [Int.floor_eq_iff]
      constructor <;> push_cast <;> norm_num
    rw [this, neg_neg]

theorem BigNumber.roundHalfUp_nonneg (q : ℚ) (hq : 0 ≤ q) : 0 ≤ BigNumber.roundHalfUp q := by
  unfold BigNumber.roundHalfUp
  rw [if_pos hq]
  exact Int.floor_nonneg.mpr (by linarith)

theorem BigNumber.roundHalfUp_zero : BigNumber.roundHalfUp 0 = 0 := by
  have := BigNumber.roundHalfUp_intCast 0
  simpa using this

/-- With `10^18` wei to the ether and an integer rate, the division of
`getTokenValue` is exact: the quotient has at most 18 decimal places. -/
theorem getTokenValue_eq_quotient (util : Util)
    (hwei : util.getWeiValue ⟨1, .ether⟩ = 10 ^ 18) (rate amount : Int) (decimals : Nat) :
    getTokenValue util (rate : ℚ) amount decimals =
      ((amount * rate * 10 ^ decimals : Int) : ℚ) / 10 ^ 18 := by
  unfold getTokenValue BigNumber.div BigNumber.decimalPlaces
  rw [hwei]
  have h : ((amount : ℚ) * (rate : ℚ) * 10 ^ decimals) / ((10 ^ 18 : Int) : ℚ) * 10 ^ 20 =
      ((amount * rate * 10 ^ decimals * 100 : Int) : ℚ) := by
    push_cast
    field_simp
    ring
  simp only [h, BigNumber.roundHalfUp_intCast]
  push_cast
  field_simp
  ring

theorem specUtil_getWeiValue_ether : specUtil.getWeiValue ⟨1, .ether⟩ = 10 ^ 18 := by
  simp [specUtil]

/-! ## Token value -/

/-- C13, as the code behaves: for non-negative integers `rate`, `amount` and
`decimals`, `getTokenValue` is the exact quotient of
`amount * rate * 10^decimals` by the `10^18` wei of one ether, without
truncation. It is an integer exactly when `10^18` divides the product, and it
is then the truncated quotient. -/
theorem getTokenValue_exact_quotient (util : Util)
    (hwei : util.getWeiValue ⟨1, .ether⟩ = 10 ^ 18) (rate amount decimals : Nat) :
    getTokenValue util (rate : ℚ) (amount : Int) decimals =
        ((amount * rate * 10 ^ decimals : Nat) : ℚ) / 10 ^ 18 ∧
      ((∃ z : Int, getTokenValue util (rate : ℚ) (amount : Int) decimals = (z : ℚ)) ↔
        10 ^ 18 ∣ amount * rate * 10 ^ decimals) ∧
      (10 ^ 18 ∣ amount * rate * 10 ^ decimals →
        getTokenValue util (rate : ℚ) (amount : Int) decimals =
          ((specTokenValue rate amount decimals : Nat) : ℚ)) := by
  have hq : getTokenValue util (rate : ℚ) (amount : Int) decimals =
      ((amount * rate * 10 ^ decimals : Nat) : ℚ) / 10 ^ 18 := by
    have h := getTokenValue_eq_quotient util hwei (rate : Int) (amount : Int) decimals
    push_cast at h ⊢
    exact h
  have hdiv : 10 ^ 18 ∣ amount * rate * 10 ^ decimals →
      getTokenValue util (rate : ℚ) (amount : Int) decimals =
        ((specTokenValue rate amount decimals : Nat) : ℚ) := by
    rintro ⟨c, hc⟩
    rw [hq]
    unfold specTokenValue
    rw [hc, Nat.mul_div_cancel_left c (by norm_num : 0 < 10 ^ 18)]
    push_cast
    field_simp
    ring
  refine ⟨hq, ⟨?_, ?_⟩, hdiv⟩
  · rintro ⟨z, hz⟩
    rw [hq, div_eq_iff (by norm_num : (10 ^ 18 : ℚ) ≠ 0)] at hz
    have hz2 : ((amount * rate * 10 ^ decimals : Nat) : Int) = z * 10 ^ 18 := by
      exact_mod_cast hz
    have hdz : (10 ^ 18 : Int) ∣ ((amount * rate * 10 ^ decimals : Nat) : Int) :=
      ⟨z, by rw [hz2]; ring⟩
    exact_mod_cast hdz
  · intro h
    exact ⟨((specTokenValue rate amount decimals : Nat) : Int), by
      rw [hdiv h]; push_cast; rfl⟩

/-- A rate of 1400 and two ether at 8 token decimals: `10^18` divides the
product and the value is the integer `280000000000`. -/
theorem getTokenValue_exact_quotient_witness :
    getTokenValue specUtil ((1400 : Nat) : ℚ) ((2 * 10 ^ 18 : Nat) : Int) 8 =
      ((2 * 10 ^ 18 * 1400 * 10 ^ 8 : Nat) : ℚ) / 10 ^ 18 :=
  (getTokenValue_exact_quotient specUtil specUtil_getWeiValue_ether 1400 (2 * 10 ^ 18) 8).1

/-- C13 fails as stated: a rate of 1000 and one wei at 8 token decimals give
the value `1 / 10^7`, which is not an integer and is not the truncated quotient
`0`. -/
theorem getTokenValue_not_truncated :
    getTokenValue specUtil ((1000 : Nat) : ℚ) ((1 : Nat) : Int) 8 = 1 / 10 ^ 7 ∧
      (¬ ∃ z : Int, getTokenValue specUtil ((1000 : Nat) : ℚ) ((1 : Nat) : Int) 8 = (z : ℚ)) ∧
      specTokenValue 1000 1 8 = 0 ∧
      getTokenValue specUtil ((1000 : Nat) : ℚ) ((1 : Nat) : Int) 8 ≠
        ((specTokenValue 1000 1 8 : Nat) : ℚ) := by
  have hq : getTokenValue specUtil ((1000 : Nat) : ℚ) ((1 : Nat) : Int) 8 = 1 / 10 ^ 7 := by
    have h := getTokenValue_eq_quotient specUtil specUtil_getWeiValue_ether 1000 1 8
    push_cast at h ⊢
    rw [h]
    norm_num
  have hs : specTokenValue 1000 1 8 = 0 := by decide
  refine ⟨hq, ?_, hs, ?_⟩
  · rintro ⟨z, hz⟩
    rw [hq] at hz
    have h1 : (z : ℚ) * 10 ^ 7 = 1 := by rw [← hz]; norm_num
    have h2 : z * 10 ^ 7 = 1 := by exact_mod_cast h1
    omega
  · rw [hq, hs]
    norm_num

/-- C14, as the code behaves: for a fixed integer rate and fixed decimals
`getTokenValue` is linear in the amount: additive in two amounts, and a
multiple of the amount gives the multiple of the value. -/
theorem getTokenValue_linear (util : Util)
    (hwei : util.getWeiValue ⟨1, .ether⟩ = 10 ^ 18) (rate a b : Int) (k decimals : Nat) :
    getTokenValue util (rate : ℚ) (a + b) decimals =
        getTokenValue util (rate : ℚ) a decimals + getTokenValue util (rate : ℚ) b decimals ∧
      getTokenValue util (rate : ℚ) ((k : Int) * a) decimals =
        (k : ℚ) * getTokenValue util (rate : ℚ) a decimals := by
  rw [getTokenValue_eq_quotient util hwei, getTokenValue_eq_quotient util hwei,
    getTokenValue_eq_quotient util hwei, getTokenValue_eq_quotient util hwei]
  constructor
  · push_cast
    ring
  · push_cast
    ring

/-- A rate of 1400 at 8 decimals: one wei and two wei against three wei, and
five times one wei. -/
theorem getTokenValue_linear_witness :
    getTokenValue specUtil ((1400 : Int) : ℚ) (1 + 2) 8 =
        getTokenValue specUtil ((1400 : Int) : ℚ) 1 8 +
          getTokenValue specUtil ((1400 : Int) : ℚ) 2 8 ∧
      getTokenValue specUtil ((1400 : Int) : ℚ) (((5 : Nat) : Int) * 1) 8 =
        ((5 : Nat) : ℚ) * getTokenValue specUtil ((1400 : Int) : ℚ) 1 8 :=
  getTokenValue_linear specUtil specUtil_getWeiValue_ether 1400 1 2 5 8

/-- C15: for a non-negative rate and a non-negative amount `getTokenValue` is
not negative, and it is `0` whenever the rate is `0` or the amount is `0`. -/
theorem getTokenValue_nonneg_and_zero (util : Util)
    (hwei : 0 < util.getWeiValue ⟨1, .ether⟩) (rate : ℚ) (amount : Int) (decimals : Nat)
    (hrate : 0 ≤ rate) (hamount : 0 ≤ amount) :
    0 ≤ getTokenValue util rate amount decimals ∧
      (rate = 0 ∨ amount = 0 → getTokenValue util rate amount decimals = 0) := by
  have hweiq : (0 : ℚ) < (util.getWeiValue ⟨1, .ether⟩ : ℚ) := by exact_mod_cast hwei
  have hamountq : (0 : ℚ) ≤ (amount : ℚ) := by exact_mod_cast hamount
  constructor
  · unfold getTokenValue BigNumber.div
    apply div_nonneg _ (by positivity)
    have hnum : (0 : ℚ) ≤ (amount : ℚ) * rate * 10 ^ decimals /
        (util.getWeiValue ⟨1, .ether⟩ : ℚ) * 10 ^ BigNumber.decimalPlaces := by
      apply mul_nonneg _ (by positivity)
      apply div_nonneg _ (le_of_lt hweiq)
      exact mul_nonneg (mul_nonneg hamountq hrate) (by positivity)
    exact_mod_cast BigNumber.roundHalfUp_nonneg _ hnum
  · intro h
    have hzero : (amount : ℚ) * rate * 10 ^ decimals = 0 := by
      rcases h with h | h
      · rw [h]; ring
      · rw [h]; simp
    unfold getTokenValue BigNumber.div
    simp only [hzero, zero_div, zero_mul, BigNumber.roundHalfUp_zero, Int.cast_zero]

/-- A rate of 1400 with two ether is not negative, and a rate of 0 gives 0. -/
theorem getTokenValue_nonneg_and_zero_witness :
    0 ≤ getTokenValue specUtil 1400 (2 * 10 ^ 18) 8 ∧
      getTokenValue specUtil 0 (2 * 10 ^ 18) 8 = 0 :=
  ⟨(getTokenValue_nonneg_and_zero specUtil (by decide) 1400 (2 * 10 ^ 18) 8
      (by norm_num) (by norm_num)).1,
    (getTokenValue_nonneg_and_zero specUtil (by decide) 0 (2 * 10 ^ 18) 8
      (le_refl _) (by norm_num)).2 (Or.inl rfl)⟩

/-- The division of `getTokenValue` rounds once the quotient has more than 20
decimal places: with the fractional rate `1.4005` and no token decimals, ten
wei are worth more than ten times one wei. -/
theorem getTokenValue_rounds_fractional_rate :
    getTokenValue specUtil (14005 / 10000) 1 0 = 140 / 10 ^ 20 ∧
      getTokenValue specUtil (14005 / 10000) 10 0 = 1401 / 10 ^ 20 := by
  have h1 : BigNumber.roundHalfUp (14005 / 100 : ℚ) = 140 := by
    unfold BigNumber.roundHalfUp
    rw [if_pos (by norm_num), Int.floor_eq_iff]
    constructor <;> norm_num
  have h2 : BigNumber.roundHalfUp (14005 / 10 : ℚ) = 1401 := by
    unfold BigNumber.roundHalfUp
    rw [if_pos (by norm_num), Int.floor_eq_iff]
    constructor <;> norm_num
  constructor
  · unfold getTokenValue BigNumber.div BigNumber.decimalPlaces
    rw [specUtil_getWeiValue_ether]
    have h : ((1 : Int) : ℚ) * (14005 / 10000) * 10 ^ 0 / ((10 ^ 18 : Int) : ℚ) * 10 ^ 20 =
        14005 / 100 := by norm_num
    simp only [h, h1]
    norm_num
  · unfold getTokenValue BigNumber.div BigNumber.decimalPlaces
    rw [specUtil_getWeiValue_ether]
    have h : ((10 : Int) : ℚ) * (14005 / 10000) * 10 ^ 0 / ((10 ^ 18 : Int) : ℚ) * 10 ^ 20 =
        14005 / 10 := by norm_num
    simp only [h, h2]
    norm_num

/-- C14 fails as stated: with the fractional rate `1.4005` and no token
decimals, the value of ten times one wei is `1401 / 10^20`, not ten times the
value `140 / 10^20` of one wei. -/
theorem getTokenValue_not_linear_fractional_rate :
    getTokenValue specUtil (14005 / 10000) (((10 : Nat) : Int) * 1) 0 ≠
      ((10 : Nat) : ℚ) * getTokenValue specUtil (14005 / 10000) 1 0 := by
  have h := getTokenValue_rounds_fractional_rate
  have h10 : (((10 : Nat) : Int) * 1) = 10 := by norm_num
  rw [h10, h.1, h.2]
  norm_num

/-! ## Lemmas on the stakeholder selection and the vesting shares -/

theorem foldl_push_eq_filter {α : Type} (p : α → Bool) (xs : List α) :
    ∀ acc : List α,
      xs.foldl (fun acc x => if p x then acc ++ [x] else acc) acc = acc ++ xs.filter p := by
  induction xs with
  | nil => intro acc; simp
  | cons x xs ih =>
    intro acc
    rw [List.foldl_cons, ih]
    by_cases hx : p x = true
    · simp [hx, List.filter_cons]
    · simp [hx, List.filter_cons]

theorem getStakeholder_eq_filter (m : Helper) (options : StakeholderOptions) :
    getStakeholder m options =
      m.config.crowdsale.stakes.stakeholders.filter (getStakeholder.selects options) := by
  unfold getStakeholder
  rw [foldl_push_eq_filter]
  simp

theorem releaseShare_sum_mul_le (tokens : Nat) (phases : List TokenReleasePhase) :
    (phases.map (releaseShare tokens)).sum * 10000 ≤
      tokens * (phases.map (fun p => p.percentage)).sum := by
  induction phases with
  | nil => simp
  | cons p ps ih =>
    simp only [List.map_cons, List.sum_cons]
    have h : releaseShare tokens p * 10000 ≤ tokens * p.percentage := by
      unfold releaseShare
      exact Nat.div_mul_le_self _ _
    rw [Nat.add_mul, Nat.mul_add]
    omega

/-- The releases of a table with at least one checkpoint, whose percentages
add up to at most `10000`, add up to the allocation. -/
theorem releaseAmounts_sum (tokens : Nat) (phases : List TokenReleasePhase)
    (hne : phases ≠ []) (hsum : (phases.map (fun p => p.percentage)).sum ≤ 10000) :
    (releaseAmounts tokens phases).sum = tokens := by
  have hle : (phases.map (releaseShare tokens)).sum ≤ tokens := by
    have h1 := releaseShare_sum_mul_le tokens phases
    have h2 : tokens * (phases.map (fun p => p.percentage)).sum ≤ tokens * 10000 :=
      Nat.mul_le_mul_left _ hsum
    omega
  have hne2 : phases.map (releaseShare tokens) ≠ [] := by
    simpa using hne
  unfold releaseAmounts
  simp only
  rw [List.getLast?_eq_getLast _ hne2]
  simp only
  have hsplit := List.dropLast_append_getLast hne2
  have hs : (phases.map (releaseShare tokens)).sum =
      ((phases.map (releaseShare tokens)).dropLast).sum +
        (phases.map (releaseShare tokens)).getLast hne2 := by
    conv_lhs => rw [← hsplit]
    simp
  rw [List.sum_append, List.sum_singleton]
  omega

theorem selects_amount (flag : Option Bool) (amount : Nat) :
    (flag == none || (flag == some true && decide (amount > 0))
        || (flag == some false && amount == 0)) =
      (match flag with
        | none => true
        | some flag => decide (amount > 0) == flag) := by
  rcases flag with _ | _ | _ <;> simp [Nat.pos_iff_ne_zero, Nat.beq_eq_true_eq]
  cases amount <;> simp

theorem selects_contract (flag : Option Bool) (account : Account) :
    (flag == none
        || (flag == some true &&
              match account with
              | .object _ => true
              | _ => false)
        || (flag == some false &&
              match account with
              | .string _ => true
              | _ => false)) =
      (match flag, account with
        | none, _ => true
        | some true, .object _ => true
        | some false, .string _ => true
        | _, _ => false) := by
  rcases flag with _ | _ | _ <;> cases account <;> simp

theorem selects_overwrite (flag : Option Bool) (value : Bool) :
    (flag == none || flag == some value) =
      (match flag with
        | none => true
        | some flag => value == flag) := by
  rcases flag with _ | _ | _ <;> cases value <;> simp

/-! ## Stakeholder selection and vesting -/

/-- C16, as the code behaves: `getStakeholder(filter)` is the sub-sequence, in
table order, of the stakeholders that satisfy every predicate present in the
filter, where `tokens` and `eth` ask for a positive amount exactly when the
flag is set, `overwriteReleaseDate` asks for the given value, and `contract`
asks for an object account when the flag is set and for a string account when
it is not; a predicate that is absent imposes nothing, and the empty filter
returns the whole table. -/
theorem getStakeholder_filters (m : Helper) :
    (∀ options : StakeholderOptions,
      getStakeholder m options =
        m.config.crowdsale.stakes.stakeholders.filter (fun stakeholder =>
          (match options.tokens with
            | none => true
            | some flag => decide (stakeholder.tokens > 0) == flag) &&
          (match options.eth with
            | none => true
            | some flag => decide (stakeholder.eth > 0) == flag) &&
          (match options.contract, stakeholder.account with
            | none, _ => true
            | some true, .object _ => true
            | some false, .string _ => true
            | _, _ => false) &&
          (match options.overwriteReleaseDate with
            | none => true
            | some flag => stakeholder.overwriteReleaseDate == flag))) ∧
    getStakeholder m {} = m.config.crowdsale.stakes.stakeholders := by
  constructor
  · intro options
    rw [getStakeholder_eq_filter]
    congr 1
    funext stakeholder
    unfold getStakeholder.selects
    rw [selects_amount, selects_amount, selects_contract, selects_overwrite]
  · rw [getStakeholder_eq_filter]
    simp [getStakeholder.selects]

/-- C16 fails as stated: no account of the test network is a contract-style
identity, so the filter that asks for no contract is satisfied by all seven
stakeholders in the words of the claim, and `getStakeholder` returns none of
them, their accounts being numbers and not strings. -/
theorem getStakeholder_contract_counterexample :
    getStakeholder testHelper { contract := some false } = [] ∧
      testHelper.config.crowdsale.stakes.stakeholders.filter
          (specSelects { contract := some false }) =
        testHelper.config.crowdsale.stakes.stakeholders ∧
      testHelper.config.crowdsale.stakes.stakeholders.length = 7 := by
  refine ⟨?_, ?_, ?_⟩
  · rw [getStakeholder_eq_filter]
    simp [getStakeholder.selects, testHelper, setup, testConfig]
  · simp [specSelects, testHelper, setup, testConfig]
  · simp [testHelper, setup, testConfig]

/-- C17: for every stakeholder of the three network configurations, the
releases of the allocation over the checkpoints of that configuration (the
share `T * p_k / 10000` each, the rounding remainder on the final one) add up
to the allocation; an allocation of 1000 over four checkpoints of 2500 is
released as four times 250. -/
theorem releaseAmounts_sum_config :
    (∀ cfg ∈ [testConfig, rinkebyConfig, mainConfig],
      ∀ stakeholder ∈ cfg.crowdsale.stakes.stakeholders,
        (releaseAmounts stakeholder.tokens cfg.crowdsale.stakes.tokenReleasePhases).sum =
          stakeholder.tokens) ∧
      releaseAmounts 1000 configTokenReleasePhases = [250, 250, 250, 250] ∧
      (releaseAmounts 1000 configTokenReleasePhases).sum = 1000 := by
  refine ⟨?_, by decide, by decide⟩
  intro cfg hcfg stakeholder _
  have hphases : cfg.crowdsale.stakes.tokenReleasePhases = configTokenReleasePhases := by
    simp only [List.mem_cons, List.mem_singleton, List.not_mem_nil, or_false] at hcfg
    rcases hcfg with h | h | h <;> subst h <;> rfl
  rw [hphases]
  exact releaseAmounts_sum _ _ (by decide) (by decide)

/-! ## Arguments out of range, starting phases and the tier comments -/

theorem index_eq_none_of_out_of_range {α : Type} (xs : List α) (i : Int)
    (h : i < 0 ∨ (xs.length : Int) ≤ i) : index xs i = none := by
  unfold index
  rcases h with h | h
  · rw [if_pos h]
  · have h0 : ¬ i < 0 := by omega
    rw [if_neg h0, List.getElem?_eq_none_iff]
    omega

/-- C18, as the code behaves: a negative amount is not rejected. With a tier
table whose thresholds are not negative, a negative amount qualifies for no
tier, so `getVolumeMultiplier` returns `null` and `getRate` returns the rate of
the phase, for every valid phase index. For a phase index outside
`[0, phases.length)`, `getRate` throws, whatever the amount. -/
theorem getRate_negative_amount_and_index_range (util : Util) (m : Helper)
    (hthr : ∀ t ∈ m.config.crowdsale.volumeMultipliers, 0 ≤ util.getWeiValue t.threshold) :
    (∀ amount : Int, amount < 0 →
      getVolumeMultiplier util m amount = none ∧
        ∀ (phase : Int) (p : Phase), index m.config.crowdsale.phases phase = some p →
          getRate util m phase (some amount) = .ok p.rate) ∧
    (∀ (phase : Int) (value : Option Int),
      phase < 0 ∨ (m.config.crowdsale.phases.length : Int) ≤ phase →
        getRate util m phase value = .error .typeError) := by
  constructor
  · intro amount hneg
    have hvm : getVolumeMultiplier util m amount = none :=
      (getVolumeMultiplier_eq_none_iff util m amount).mpr
        (fun t ht => lt_of_lt_of_le hneg (hthr t ht))
    refine ⟨hvm, ?_⟩
    intro phase p hp
    unfold getRate
    rw [hp]
    cases hb : p.usesVolumeMultiplier <;> simp [hb, hvm]
  · intro phase value hout
    unfold getRate
    rw [index_eq_none_of_out_of_range _ _ hout]

/-- The test network, whose thresholds run from 1 to 2500 ether: an amount of
`-1` wei in the presale phase, and the phase indices `-1` and `7`. -/
theorem getRate_negative_amount_and_index_range_witness :
    getVolumeMultiplier specUtil testHelper (-1) = none ∧
      getRate specUtil testHelper 0 (some (-1)) = .ok 1000 ∧
      getRate specUtil testHelper (-1) (some 1) = .error .typeError ∧
      getRate specUtil testHelper 7 (some 1) = .error .typeError :=
  have h := getRate_negative_amount_and_index_range specUtil testHelper
    (by
      intro t ht
      simp only [testHelper, setup, testConfig, configVolumeMultipliers, List.mem_cons,
        List.mem_singleton, List.not_mem_nil, or_false] at ht
      rcases ht with h | h | h | h | h | h <;> subst h <;> decide)
  ⟨(h.1 (-1) (by decide)).1,
    (h.1 (-1) (by decide)).2 0
      { duration := ⟨16, .days⟩, rate := 1000, lockupPeriod := some ⟨30, .days⟩,
        usesVolumeMultiplier := true }
      (by rfl),
    h.2 (-1) (some 1) (Or.inl (by decide)),
    h.2 7 (some 1) (Or.inr (by decide))⟩

/-- C18 fails as stated: for the negative amount of `-1` wei the tier lookup of
the test network returns `null` and `getRate` returns the rate 1000 of the
presale phase; neither reports a failure. -/
theorem getRate_accepts_negative_amount :
    getVolumeMultiplier specUtil testHelper (-1) = none ∧
      getRate specUtil testHelper 0 (some (-1)) = .ok 1000 := by
  constructor <;>
    norm_num [getRate, testHelper, setup, testConfig, configVolumeMultipliers, index,
      getVolumeMultiplier, getVolumeMultiplier.loop, specUtil]

/-- C19, where the code departs from it: `publicsale.getStartingPhase()`
returns the phase at index `0`, the value of `presale.getStartingPhase()`, for
every configuration. On the test network that is the presale phase of rate
1000, while the phase at the start index 2, the first of
`publicsale.getPhases()`, is the first-day phase of rate 1400. -/
theorem publicsale_getStartingPhase_is_opening_phase :
    (∀ m : Helper, publicsale.getStartingPhase m = index m.config.crowdsale.phases 0 ∧
      presale.getStartingPhase m = index m.config.crowdsale.phases 0) ∧
    publicsale.getStartingPhaseIndex testHelper = some 2 ∧
    (publicsale.getStartingPhase testHelper).map (fun p => p.rate) = some 1000 ∧
    ((publicsale.getPhases testHelper).head?).map (fun p => p.rate) = some 1400 ∧
    (index testHelper.config.crowdsale.phases 2).map (fun p => p.rate) = some 1400 ∧
    publicsale.getStartingPhase testHelper ≠ (publicsale.getPhases testHelper).head? := by
  have hpub : publicsale.getPhases testHelper = testHelper.config.crowdsale.phases.drop 2 := by
    unfold publicsale.getPhases
    rw [publicsale.getStartingPhaseIndex_test, slice_some_none]
  refine ⟨fun m => ⟨rfl, rfl⟩, publicsale.getStartingPhaseIndex_test, ?_, ?_, ?_, ?_⟩
  · simp [publicsale.getStartingPhase, index, testHelper, setup, testConfig]
  · rw [hpub]
    simp [testHelper, setup, testConfig]
  · simp [index, testHelper, setup, testConfig]
  · rw [hpub]
    simp [publicsale.getStartingPhase, index, testHelper, setup, testConfig]

/-- C20: with the rinkeby configuration, and with the main configuration, bound
with the scale `10^4`, `getRate(0, amount)` at the six tier thresholds of 1, 30,
100, 500, 1000 and 2500 ether is 700, 725, 750, 775, 800 and 825, the integers
of the tier comments. -/
theorem getRate_tier_comments :
    (∀ cfg ∈ [rinkebyConfig, mainConfig],
      getRate specUtil (setup cfg (precisionScale 4)) 0 (some (ether 1)) =
          .ok ((700 : Int) : ℚ) ∧
        getRate specUtil (setup cfg (precisionScale 4)) 0 (some (ether 30)) =
          .ok ((725 : Int) : ℚ) ∧
        getRate specUtil (setup cfg (precisionScale 4)) 0 (some (ether 100)) =
          .ok ((750 : Int) : ℚ) ∧
        getRate specUtil (setup cfg (precisionScale 4)) 0 (some (ether 500)) =
          .ok ((775 : Int) : ℚ) ∧
        getRate specUtil (setup cfg (precisionScale 4)) 0 (some (ether 1000)) =
          .ok ((800 : Int) : ℚ) ∧
        getRate specUtil (setup cfg (precisionScale 4)) 0 (some (ether 2500)) =
          .ok ((825 : Int) : ℚ)) ∧
    (index rinkebyConfig.crowdsale.phases 0).map (fun p => (p.rate, p.usesVolumeMultiplier)) =
      some (500, true) := by
  constructor
  · intro cfg hcfg
    simp only [List.mem_cons, List.mem_singleton, List.not_mem_nil, or_false] at hcfg
    rcases hcfg with h | h <;> subst h <;> refine ⟨?_, ?_, ?_, ?_, ?_, ?_⟩ <;>
      norm_num [getRate, setup, rinkebyConfig, mainConfig, configVolumeMultipliers, index,
        getVolumeMultiplier, getVolumeMultiplier.loop, specUtil, ether, precisionScale]
  · simp [index, rinkebyConfig]

/-! ## Authentication -/

/-- C21, where the code departs from it: `usesAuthentication()` is true exactly
when `crowdsale.authentication.whitelist` is present, and it is true for the
test network. For the rinkeby and main networks it is false: their whitelist
with `require: true` sits one level deeper, at
`crowdsale.authentication.authentication.whitelist`, and
`crowdsale.authentication.whitelist` is undefined. -/
theorem usesAuthentication_networks :
    (∀ m : Helper, usesAuthentication m = true ↔
      ∃ w, m.config.crowdsale.authentication.whitelist = some w) ∧
    (∀ scale : ℚ, usesAuthentication (setup testConfig scale) = true ∧
      usesAuthentication (setup rinkebyConfig scale) = false ∧
      usesAuthentication (setup mainConfig scale) = false) ∧
    testConfig.crowdsale.authentication.whitelist = some { require := true } ∧
    rinkebyConfig.crowdsale.authentication.whitelist = none ∧
    mainConfig.crowdsale.authentication.whitelist = none ∧
    rinkebyConfig.crowdsale.authentication.authentication.map (fun a => a.whitelist) =
      some (some { require := true }) ∧
    mainConfig.crowdsale.authentication.authentication.map (fun a => a.whitelist) =
      some (some { require := true }) := by
  refine ⟨?_, ?_, rfl, rfl, rfl, rfl, rfl⟩
  · intro m
    unfold usesAuthentication
    exact Option.isSome_iff_exists
  · intro scale
    exact ⟨rfl, rfl, rfl⟩

/-! ## Monotonicity of the rate -/

theorem getRate_eq_of_index (util : Util) (m : Helper) (phase : Int) (p : Phase) (v : Int)
    (hp : index m.config.crowdsale.phases phase = some p) :
    getRate util m phase (some v) =
      .ok (if p.usesVolumeMultiplier = true then
          match getVolumeMultiplier util m v with
          | some t => p.rate + p.rate * t.rate / m.precision
          | none => p.rate
        else p.rate) := by
  unfold getRate
  rw [hp]
  cases hb : p.usesVolumeMultiplier
  · simp [hb]
  · cases hv : getVolumeMultiplier util m v <;> simp [hb, hv]

/-- The blended rate does not decrease with the amount, for tier rates that
are not negative and do not decrease along the table. -/
theorem tier_rate_le_of_le (util : Util) (m : Helper) (rate : ℚ) (a b : Int)
    (hrates : m.config.crowdsale.volumeMultipliers.Pairwise (fun x y => x.rate ≤ y.rate))
    (hnonneg : ∀ t ∈ m.config.crowdsale.volumeMultipliers, 0 ≤ t.rate)
    (hbase : 0 ≤ rate) (hscale : 0 < m.precision) (hab : a ≤ b) :
    (match getVolumeMultiplier util m a with
      | some t => rate + rate * t.rate / m.precision
      | none => rate) ≤
    (match getVolumeMultiplier util m b with
      | some t => rate + rate * t.rate / m.precision
      | none => rate) := by
  have hbonus : ∀ t ∈ m.config.crowdsale.volumeMultipliers,
      rate ≤ rate + rate * t.rate / m.precision := by
    intro t ht
    have : 0 ≤ rate * t.rate / m.precision :=
      div_nonneg (mul_nonneg hbase (hnonneg t ht)) (le_of_lt hscale)
    linarith
  cases ha : getVolumeMultiplier util m a with
  | none =>
    cases hb : getVolumeMultiplier util m b with
    | none => exact le_refl _
    | some tb =>
      obtain ⟨j, hj, _, _⟩ := (getVolumeMultiplier_eq_some_iff util m b tb).mp hb
      exact hbonus tb (List.getElem?_mem hj)
  | some ta =>
    obtain ⟨i, hi, hia, _⟩ := (getVolumeMultiplier_eq_some_iff util m a ta).mp ha
    cases hb : getVolumeMultiplier util m b with
    | none =>
      have hlt := (getVolumeMultiplier_eq_none_iff util m b).mp hb ta (List.getElem?_mem hi)
      omega
    | some tb =>
      obtain ⟨j, hj, _, hjmax⟩ := (getVolumeMultiplier_eq_some_iff util m b tb).mp hb
      have hij : i ≤ j := by
        by_contra hlt
        have := hjmax i ta (by omega) hi
        omega
      have hrate : ta.rate ≤ tb.rate := by
        rcases Nat.eq_or_lt_of_le hij with heq | hlt
        · subst heq
          rw [hi] at hj
          rw [Option.some.inj hj]
        · obtain ⟨hi1, hi2⟩ := List.getElem?_eq_some_iff.mp hi
          obtain ⟨hj1, hj2⟩ := List.getElem?_eq_some_iff.mp hj
          have := List.pairwise_iff_getElem.mp hrates i j hi1 hj1 hlt
          rw [hi2, hj2] at this
          exact this
      show rate + rate * ta.rate / m.precision ≤ rate + rate * tb.rate / m.precision
      have : rate * ta.rate / m.precision ≤ rate * tb.rate / m.precision :=
        div_le_div_of_nonneg_right (mul_le_mul_of_nonneg_left hrate hbase) (le_of_lt hscale)
      linarith

theorem getRate_le_of_le (util : Util) (m : Helper) (phase : Int) (p : Phase) (a b : Int)
    (hp : index m.config.crowdsale.phases phase = some p)
    (hrates : m.config.crowdsale.volumeMultipliers.Pairwise (fun x y => x.rate ≤ y.rate))
    (hnonneg : ∀ t ∈ m.config.crowdsale.volumeMultipliers, 0 ≤ t.rate)
    (hbase : 0 ≤ p.rate) (hscale : 0 < m.precision) (hab : a ≤ b) :
    ∃ ra rb, getRate util m phase (some a) = .ok ra ∧
      getRate util m phase (some b) = .ok rb ∧ ra ≤ rb := by
  refine ⟨_, _, getRate_eq_of_index util m phase p a hp,
    getRate_eq_of_index util m phase p b hp, ?_⟩
  cases hflag : p.usesVolumeMultiplier
  · simp
  · simp only [if_true]
    exact tier_rate_le_of_le util m p.rate a b hrates hnonneg hbase hscale hab

theorem mem_of_index_eq_some {α : Type} (xs : List α) (i : Int) (x : α)
    (h : index xs i = some x) : x ∈ xs := by
  unfold index at h
  split at h
  · cases h
  · exact List.getElem?_mem h

theorem configVolumeMultipliers_rates :
    configVolumeMultipliers.Pairwise (fun x y => x.rate ≤ y.rate) ∧
      ∀ t ∈ configVolumeMultipliers, 0 ≤ t.rate := by
  constructor
  · simp only [configVolumeMultipliers, List.pairwise_cons, List.mem_cons, List.mem_singleton,
      List.not_mem_nil, List.Pairwise.nil, forall_eq_or_imp, forall_eq, and_true]
    norm_num
  · intro t ht
    simp only [configVolumeMultipliers, List.mem_cons, List.mem_singleton, List.not_mem_nil,
      or_false] at ht
    rcases ht with h | h | h | h | h | h <;> subst h <;> norm_num

theorem config_phase_rates_nonneg :
    ∀ cfg ∈ [testConfig, rinkebyConfig, mainConfig],
      cfg.crowdsale.volumeMultipliers = configVolumeMultipliers ∧
        ∀ p ∈ cfg.crowdsale.phases, 0 ≤ p.rate := by
  intro cfg hcfg
  simp only [List.mem_cons, List.mem_singleton, List.not_mem_nil, or_false] at hcfg
  rcases hcfg with h | h | h <;> subst h <;> refine ⟨rfl, ?_⟩ <;> intro p hp <;>
    simp only [testConfig, rinkebyConfig, mainConfig, List.mem_cons, List.mem_singleton,
      List.not_mem_nil, or_false] at hp <;>
    rcases hp with h | h | h | h | h | h | h <;> subst h <;> norm_num

/-- C22, as the code behaves: for tier rates that are not negative and do not
decrease along the table, a base rate that is not negative and a positive
precision scale, `getRate` of a valid phase does not decrease with the amount
(the order of the thresholds plays no part). In particular this holds for the
three networks of `config.js`, for every phase of theirs and every positive
scale. -/
theorem getRate_monotone (util : Util) (m : Helper) (phase : Int) (p : Phase) (a b : Int)
    (hp : index m.config.crowdsale.phases phase = some p)
    (hrates : m.config.crowdsale.volumeMultipliers.Pairwise (fun x y => x.rate ≤ y.rate))
    (hnonneg : ∀ t ∈ m.config.crowdsale.volumeMultipliers, 0 ≤ t.rate)
    (hbase : 0 ≤ p.rate) (hscale : 0 < m.precision) (hab : a ≤ b) :
    (∃ ra rb, getRate util m phase (some a) = .ok ra ∧
      getRate util m phase (some b) = .ok rb ∧ ra ≤ rb) ∧
    (∀ cfg ∈ [testConfig, rinkebyConfig, mainConfig],
      ∀ (scale : ℚ) (phase : Int) (p : Phase) (a b : Int), 0 < scale →
        index cfg.crowdsale.phases phase = some p → a ≤ b →
        ∃ ra rb, getRate util (setup cfg scale) phase (some a) = .ok ra ∧
          getRate util (setup cfg scale) phase (some b) = .ok rb ∧ ra ≤ rb) := by
  refine ⟨getRate_le_of_le util m phase p a b hp hrates hnonneg hbase hscale hab, ?_⟩
  intro cfg hcfg scale phase p a b hscale hp hab
  obtain ⟨htiers, hphases⟩ := config_phase_rates_nonneg cfg hcfg
  have hp2 : index (setup cfg scale).config.crowdsale.phases phase = some p := hp
  have htiers2 : (setup cfg scale).config.crowdsale.volumeMultipliers =
      configVolumeMultipliers := htiers
  refine getRate_le_of_le util (setup cfg scale) phase p a b hp2 ?_ ?_
    (hphases p (mem_of_index_eq_some _ _ _ hp)) hscale hab
  · rw [htiers2]; exact configVolumeMultipliers_rates.1
  · rw [htiers2]; exact configVolumeMultipliers_rates.2

/-- The presale phase of the test network at 50 and at 200 ether. -/
theorem getRate_monotone_witness :
    ∃ ra rb, getRate specUtil testHelper 0 (some (ether 50)) = .ok ra ∧
      getRate specUtil testHelper 0 (some (ether 200)) = .ok rb ∧ ra ≤ rb :=
  (getRate_monotone specUtil testHelper 0
    { duration := ⟨16, .days⟩, rate := 1000, lockupPeriod := some ⟨30, .days⟩,
      usesVolumeMultiplier := true }
    (ether 50) (ether 200) (by rfl) configVolumeMultipliers_rates.1
    configVolumeMultipliers_rates.2 (by norm_num)
    (by norm_num [testHelper, setup, precisionScale]) (by decide)).1

/-- C22 fails as stated: with a single tier of rate `-4000` at one ether (so
the thresholds increase strictly and the tier rates do not decrease), the base
rate 1000 and the scale `10^4`, the rate at 0 wei is 1000 and the rate at one
ether is 600. -/
theorem getRate_decreases_with_negative_tier :
    negativeTierConfig.crowdsale.volumeMultipliers.Pairwise
        (fun x y => specUtil.getWeiValue x.threshold < specUtil.getWeiValue y.threshold) ∧
      negativeTierConfig.crowdsale.volumeMultipliers.Pairwise (fun x y => x.rate ≤ y.rate) ∧
      (index negativeTierConfig.crowdsale.phases 0).map (fun p => p.rate) = some 1000 ∧
      0 < precisionScale 4 ∧
      (0 : Int) ≤ ether 1 ∧
      getRate specUtil (setup negativeTierConfig (precisionScale 4)) 0 (some 0) = .ok 1000 ∧
      getRate specUtil (setup negativeTierConfig (precisionScale 4)) 0 (some (ether 1)) =
        .ok 600 ∧
      ¬ ((1000 : ℚ) ≤ 600) := by
  refine ⟨?_, ?_, ?_, ?_, ?_, ?_, ?_, ?_⟩
  · simp [negativeTierConfig]
  · simp [negativeTierConfig]
  · simp [index, negativeTierConfig]
  · norm_num [precisionScale]
  · decide
  · norm_num [getRate, setup, negativeTierConfig, index, getVolumeMultiplier,
      getVolumeMultiplier.loop, specUtil]
  · norm_num [getRate, setup, negativeTierConfig, index, getVolumeMultiplier,
      getVolumeMultiplier.loop, specUtil, ether, precisionScale]
  · norm_num

/-! ## Transition phase and start index -/

theorem presale.hasTransitionPhase_iff (m : Helper) (s : Nat)
    (hs : publicsale.getStartingPhaseIndex m = some s) :
    ∃ last, m.config.crowdsale.phases[s - 1]? = some last ∧
      (presale.hasTransitionPhase m = true ↔ last.rate = 0) := by
  obtain ⟨h1, ⟨p, hp, _⟩, _⟩ := (publicsale.getStartingPhaseIndex_eq_some_iff m s).mp hs
  have hlt : s < m.config.crowdsale.phases.length := (List.getElem?_eq_some_iff.mp hp).1
  have hpre : presale.getPhases m = m.config.crowdsale.phases.take s := by
    unfold presale.getPhases
    rw [hs, slice_zero_some]
  have hlast : (presale.getPhases m).getLast? =
      some (m.config.crowdsale.phases[s - 1]) := by
    rw [hpre, List.getLast?_eq_getElem?, List.length_take, Nat.min_eq_left (le_of_lt hlt),
      List.getElem?_take_of_lt (by omega), List.getElem?_eq_getElem (by omega)]
  refine ⟨m.config.crowdsale.phases[s - 1], List.getElem?_eq_getElem (by omega), ?_⟩
  unfold presale.hasTransitionPhase
  rw [presale.getTransitionPhase_eq, hlast]
  by_cases hr : (m.config.crowdsale.phases[s - 1]).rate = 0 <;> simp [hr]

/-- C23: for a phase table with non-negative rates and public-sale start index
`s`: when `s ≥ 2`, every phase at an index strictly between `0` and `s` has rate
`0` and `presale.hasTransitionPhase()` is true; when `s = 1`,
`presale.hasTransitionPhase()` is true exactly when the rate of phase `0` is
`0`. -/
theorem hasTransitionPhase_by_start_index (m : Helper) (s : Nat)
    (hs : publicsale.getStartingPhaseIndex m = some s)
    (hnonneg : ∀ p ∈ m.config.crowdsale.phases, 0 ≤ p.rate) :
    (2 ≤ s →
      (∀ (j : Nat) (p : Phase), 1 ≤ j → j < s →
        m.config.crowdsale.phases[j]? = some p → p.rate = 0) ∧
      presale.hasTransitionPhase m = true) ∧
    (s = 1 →
      ∃ opening, m.config.crowdsale.phases[0]? = some opening ∧
        (presale.hasTransitionPhase m = true ↔ opening.rate = 0)) := by
  obtain ⟨_, _, hmin⟩ := (publicsale.getStartingPhaseIndex_eq_some_iff m s).mp hs
  obtain ⟨last, hlast, hiff⟩ := presale.hasTransitionPhase_iff m s hs
  have hzero : ∀ (j : Nat) (p : Phase), 1 ≤ j → j < s →
      m.config.crowdsale.phases[j]? = some p → p.rate = 0 := by
    intro j p hj hjs hjp
    exact le_antisymm (hmin j p hj hjs hjp) (hnonneg p (List.getElem?_mem hjp))
  constructor
  · intro h2
    exact ⟨hzero, hiff.mpr (hzero (s - 1) last (by omega) (by omega) hlast)⟩
  · intro h1
    subst h1
    exact ⟨last, hlast, hiff⟩

/-- The test network, of start index 2: the break at index 1 has rate 0 and
the presale has a transition phase. -/
theorem hasTransitionPhase_by_start_index_witness :
    (∀ (j : Nat) (p : Phase), 1 ≤ j → j < 2 →
        testHelper.config.crowdsale.phases[j]? = some p → p.rate = 0) ∧
      presale.hasTransitionPhase testHelper = true :=
  (hasTransitionPhase_by_start_index testHelper 2 publicsale.getStartingPhaseIndex_test
    (config_phase_rates_nonneg testConfig (by simp)).2).1 (le_refl 2)

end CrowdsaleHelper
